import Mathlib

/-!
# Verification of the `panda` multi-sentence compression module

This file gives a shallow embedding in Lean 4 of the algorithmic core of
`panda.py` (a multi-sentence compression engine: a word-graph builder, a
constrained k-shortest-path search, and a TextRank-based keyphrase reranker),
together with theorems settling a list of claims about that code.

Modelling conventions:
* Python `float` values are modelled as `ℚ` (all arithmetic in the program is
  `+ - * / min abs` on values produced from decimal literals, so `ℚ` is exact).
* Python dicts holding insertion-ordered data are modelled as association
  lists; sets of strings as `List String` with membership via `contains`.
* Fallible operations (`ZeroDivisionError`, `networkx` lookups of missing
  nodes, regex match failures) are modelled with `Except PyErr`.
* Loops whose termination is not structural carry an explicit fuel argument;
  running out of fuel is the distinguished error `PyErr.fuelOut` (a model
  artifact, never produced by the Python code itself).
* Python negative list indices wrap around (`s[-1]` is the last element); an
  out-of-range index raises `IndexError` in Python, which the embedding
  totalizes with a default value.  The defaults are only reachable on inputs
  where the Python code would crash, so theorems about completed runs are
  unaffected.
* `re.search('(?u)^\W$', tok)` (the punctuation test) is modelled as "a single
  character that is not alphanumeric and not an underscore"; the concrete
  inputs appearing in witnesses are ASCII, where this is exact.
-/

set_option maxRecDepth 4000

inductive PyErr where
  | zeroDivision      -- Python ZeroDivisionError
  | nodeNotInGraph    -- networkx NetworkXError ("node not in the digraph")
  | matchFail         -- AttributeError: re.match returned None
  | valueErr          -- ValueError from float()
  | fuelOut           -- model artifact: fuel exhausted
deriving DecidableEq, Repr

/-- Graph node key: `(word ++ sep ++ pos, disambiguation id)` as in the Python
code, where `sep` is the three-character separator slash dash slash. -/
abbrev GNode := String × ℕ

/-- A node's `info` attribute: list of `(sentence id, position)` occurrences. -/
abbrev Info := List (ℕ × ℕ)

/-- A preprocessed token `(word, pos, weight-string)` as built by
`pre_process_sentences`. -/
abbrev Triple := String × String × String

/-- `self.sep`, the slash dash slash separator. -/
def gsep : String := "/-/"

/-- `self.start = '-start-'`. -/
def startTok : String := "-start-"

/-- `self.stop = '-end-'`. -/
def stopTok : String := "-end-"

/-- A Python `\w` word character (modelled as alphanumeric or underscore). -/
def wordChar (c : Char) : Bool := c.isAlphanum || c == '_'

/-- `re.search('(?u)^\W$', token)`: `token` is a single non-word character. -/
def isPunctTok (t : String) : Bool :=
  match t.toList with
  | [c] => !wordChar c
  | _ => false

/-- Python list indexing `s[idx]` with negative wrap-around; out-of-range
(where Python raises `IndexError`) yields a default triple. -/
def pyGetTriple (s : List Triple) (idx : ℤ) : Triple :=
  let j : ℤ := if idx < 0 then (s.length : ℤ) + idx else idx
  if 0 ≤ j ∧ j < (s.length : ℤ) then s.getD j.toNat ("", "", "") else ("", "", "")

/-- Association-list lookup (Python `dict[k]` / `k in dict`). -/
def dlookup {α β : Type} [BEq α] (m : List (α × β)) (k : α) : Option β :=
  (m.find? (fun p => p.1 == k)).map (·.2)

/-- `dict.setdefault`-style append used by `compute_statistics`:
`if k not in m: m[k] = [v] else: m[k].append(v)`. -/
def dictAppend {β : Type} (m : List (String × List β)) (k : String) (v : β) :
    List (String × List β) :=
  if m.any (fun p => p.1 == k) then
    m.map (fun p => if p.1 == k then (p.1, p.2 ++ [v]) else p)
  else m ++ [(k, [v])]

/-- `min` over a Python list (the lists it is applied to are nonempty). -/
def minList : List ℚ → ℚ
  | [] => 0
  | [x] => x
  | x :: y :: xs => min x (minList (y :: xs))

/-- Inner loop of `word_graph.max_index`: scan keeping the running maximum
value and the index where it was first attained. -/
def maxIndexGo : List ℕ → ℕ → ℕ → ℕ → ℕ
  | [], _, _, maxInd => maxInd
  | x :: xs, z, maxVal, maxInd =>
    if maxVal < x then maxIndexGo xs (z + 1) x z
    else maxIndexGo xs (z + 1) maxVal maxInd

/-- `word_graph.max_index`: index of the first maximal element.  (For the
empty list Python raises `IndexError`; the code never calls it on an empty
list, and the embedding returns `0` there.) -/
def max_index : List ℕ → ℕ
  | [] => 0
  | x :: xs => maxIndexGo xs 1 x 0

/-- `foldr max 0`: the maximum value of a list of naturals. -/
def lmaxN (l : List ℕ) : ℕ := l.foldr max 0

/-- The index of the leftmost maximal element, written independently of
`max_index` (via `indexOf` of the maximum value). -/
def leftmostMax (l : List ℕ) : ℕ := l.indexOf (lmaxN l)

/-- The candidate index chosen in one round of the pass-2/3 selection:
the leftmost index with maximal overlap, except that when the maximal overlap
is zero the leftmost index with maximal frequency is chosen instead. -/
def pickIdx (o f : List ℕ) : ℕ :=
  if lmaxN o == 0 then leftmostMax f else leftmostMax o

/-- The `while not found` candidate-selection loop of pass 2 of
`word_graph.build_graph` (lines 369-397), translated directly:
`collides s` says that the node `(node, s)` already has an occurrence from the
current sentence.  Returns `some s` when a non-colliding candidate is found and
`none` when the candidate lists are exhausted (so a new node gets created).
The fuel is the list length; each iteration deletes one element. -/
def selectLoopGo : ℕ → List ℕ → List ℕ → (ℕ → Bool) → Option ℕ
  | _, [], _, _ => none
  | 0, _ :: _, _, _ => none
  | fuel + 1, x :: o, f, collides =>
    let s0 := max_index (x :: o)
    let s := if (x :: o).getD s0 1 == 0 then max_index f else s0
    if collides s then
      let o2 := (x :: o).eraseIdx s
      let f2 := f.eraseIdx s
      if o2.isEmpty then none else selectLoopGo fuel o2 f2 collides
    else some s

def selectLoop (o f : List ℕ) (collides : ℕ → Bool) : Option ℕ :=
  selectLoopGo o.length o f collides

/-- The selection loop as the amended claim describes it: in each round pick
`pickIdx` (leftmost maximal overlap, falling back to leftmost maximal
frequency when the top overlap is zero); on a same-sentence collision delete
that entry from both lists and retry on the re-indexed remainder; `none` once
the lists are exhausted. -/
def amendedSelectGo : ℕ → List ℕ → List ℕ → (ℕ → Bool) → Option ℕ
  | _, [], _, _ => none
  | 0, _ :: _, _, _ => none
  | fuel + 1, x :: o, f, collides =>
    let s := pickIdx (x :: o) f
    if collides s then
      let o2 := (x :: o).eraseIdx s
      let f2 := f.eraseIdx s
      if o2.isEmpty then none else amendedSelectGo fuel o2 f2 collides
    else some s

def amendedSelect (o f : List ℕ) (collides : ℕ → Bool) : Option ℕ :=
  amendedSelectGo o.length o f collides

/-- The selection rule as claim C4 words it: the candidate with the highest
overlap score, ties broken by the higher frequency (leftmost on full ties).
Written from the claim's words, for comparison with the code's `selectLoop`. -/
def claimedPick (o f : List ℕ) : ℕ :=
  let pairs := o.zip f
  let best := pairs.foldr (fun p q => if q.1 < p.1 ∨ (q.1 = p.1 ∧ q.2 ≤ p.2) then p else q)
    (0, 0)
  pairs.indexOf best

/-! ## Sentence preprocessing (`word_graph.pre_process_sentences`) -/

/-- `re.sub(' +', ' ', s)`: collapse runs of spaces (scan with a flag telling
whether the previous kept character was a space of a run). -/
def normSpacesGo : List Char → Bool → List Char
  | [], _ => []
  | c :: cs, inRun =>
    if c == ' ' then
      if inRun then normSpacesGo cs true else ' ' :: normSpacesGo cs true
    else c :: normSpacesGo cs false

def norm_spaces (s : String) : String := String.mk (normSpacesGo s.toList false)

/-- A nonempty all-digit string. -/
def okDigits (p : String) : Bool := p.length > 0 && p.toList.all Char.isDigit

/-- The weight pattern of the token regex: digits, then any number of
dot-digits groups (so it matches the whole of the remaining suffix). -/
def numOk (s : String) : Bool := (s.splitOn ".").all okDigits

/-- The anchored token regex `(.+) sep (.+) sep (digits(.digits)*)` with both
greedy groups: group 1 takes the longest viable prefix, then group 2 the
longest viable middle, so the weight starts at the last viable separator.
`none` models `re.match` returning `None` (an `AttributeError` follows). -/
def token_split (sepc : Char) (w : String) : Option Triple :=
  let cs := w.toList
  let n := cs.length
  let seps := (List.range n).filter (fun q => cs.getD q ' ' == sepc)
  let qs := seps.filter (fun q => q + 1 < n && numOk (String.mk (cs.drop (q + 1))))
  let ps := seps.filter (fun p => 1 ≤ p && qs.any (fun q => p + 2 ≤ q))
  match ps.max? with
  | none => none
  | some p =>
    match (qs.filter (fun q => p + 2 ≤ q)).max? with
    | none => none
    | some q =>
      some (String.mk (cs.take p), String.mk ((cs.drop (p + 1)).take (q - p - 1)),
        String.mk (cs.drop (q + 1)))

/-- Preprocess one sentence: normalize spaces, strip, split on single spaces,
parse every token, and wrap the result in start/end sentinel triples. -/
def pre_process_one (sepc : Char) (s : String) : Except PyErr (List Triple) := do
  let s1 := (norm_spaces s).trim
  let words := s1.splitOn " "
  let toks ← words.mapM (fun w =>
    match token_split sepc w with
    | some (t, p, wt) => Except.ok (t.toLower, p, wt)
    | none => Except.error PyErr.matchFail)
  Except.ok ([(startTok, startTok, startTok)] ++ toks ++ [(stopTok, stopTok, stopTok)])

def pre_process_sentences (sepc : Char) (raw : List String) :
    Except PyErr (List (List Triple)) :=
  raw.mapM (pre_process_one sepc)

/-! ## Term statistics (`word_graph.compute_statistics`) -/

/-- Python `float` on the weight strings the token regex accepts: an integer
part, optionally one dot and a fractional part.  (Weight strings with two or
more dots pass the token regex but make `float` raise `ValueError`.) -/
def parse_float (s : String) : Option ℚ :=
  match s.splitOn "." with
  | [a] => if okDigits a then some ((a.toNat?.getD 0 : ℕ) : ℚ) else none
  | [a, b] =>
    if okDigits a && okDigits b then
      some (((a.toNat?.getD 0 : ℕ) : ℚ) + ((b.toNat?.getD 0 : ℕ) : ℚ) / (10 : ℚ) ^ b.length)
    else none
  | _ => none

/-- The node label `token.lower() + self.sep + pos`. -/
def nodeOf (token pos : String) : String := token.toLower ++ gsep ++ pos

/-- One token of the statistics pass: always record the sentence id under the
label (`terms`), and record the weight string too unless it is a sentinel. -/
def statsStep (i : ℕ) (acc : List (String × List ℕ) × List (String × List String))
    (t : Triple) : List (String × List ℕ) × List (String × List String) :=
  let node := nodeOf t.1 t.2.1
  let terms := dictAppend acc.1 node i
  if t.2.2 == startTok || t.2.2 == stopTok then (terms, acc.2)
  else (terms, dictAppend acc.2 node t.2.2)

/-- `compute_statistics`: term "frequency" is the number of recorded
occurrences (sentence ids with multiplicity), term weight the sum of the
parsed per-occurrence weights. -/
def compute_statistics (sents : List (List Triple)) :
    Except PyErr (List (String × ℕ) × List (String × ℚ)) := do
  let init : List (String × List ℕ) × List (String × List String) := ([], [])
  let tw := sents.enum.foldl (fun acc p => p.2.foldl (statsStep p.1) acc) init
  let term_freq := tw.1.map (fun p => (p.1, p.2.length))
  let term_weight ← tw.2.mapM (fun p => do
    let vals ← p.2.mapM (fun ws =>
      match parse_float ws with
      | some v => Except.ok v
      | none => Except.error PyErr.valueErr)
    Except.ok (p.1, vals.foldl (· + ·) 0))
  Except.ok (term_freq, term_weight)

/-! ## The word graph under construction (`self.graph`, a networkx DiGraph) -/

/-- The node set with each node's `info` attribute, in insertion order. -/
abbrev NodeList := List (GNode × Info)

def hasNode (g : NodeList) (n : GNode) : Bool := g.any (fun p => p.1 == n)

/-- `self.graph.node[n]['info']` (`[]` stands for the attribute-less nodes
networkx creates when `add_edge` mentions a missing node). -/
def getInfo (g : NodeList) (n : GNode) : Info :=
  ((g.find? (fun p => p.1 == n)).map (·.2)).getD []

/-- networkx `add_node(n, info=inf)`: replaces the attribute when the node
already exists, otherwise appends a fresh node. -/
def addNode (g : NodeList) (n : GNode) (inf : Info) : NodeList :=
  if hasNode g n then g.map (fun p => if p.1 == n then (n, inf) else p)
  else g ++ [(n, inf)]

/-- `self.graph.node[n]['info'].append(ij)` (first matching node). -/
def appendInfo : NodeList → GNode → ℕ × ℕ → NodeList
  | [], _, _ => []
  | p :: ps, n, ij =>
    if p.1 == n then (p.1, p.2 ++ [ij]) :: ps else p :: appendInfo ps n ij

def ambLoop (g : NodeList) (label : String) : ℕ → ℕ → ℕ
  | 0, k => k
  | fuel + 1, k => if hasNode g (label, k) then ambLoop g label fuel (k + 1) else k

/-- `word_graph.ambiguous_nodes`: count `k` upwards while `(label, k)` is a
node.  The fuel `g.length + 1` suffices: the loop stops after at most as many
steps as there are nodes. -/
def ambiguous_nodes (g : NodeList) (label : String) : ℕ :=
  ambLoop g label (g.length + 1) 0

inductive CDir | left | right | all
deriving DecidableEq

/-- `word_graph.get_directed_context`: the labels of the sentence neighbors of
every recorded occurrence of `(label, k)`; with `nonPos` set, neighbors that
are stopwords are skipped. -/
def get_directed_context (sents : List (List Triple)) (sw : List String) (g : NodeList)
    (label : String) (k : ℕ) (dir : CDir) (nonPos : Bool) : List String :=
  let lr := (getInfo g (label, k)).foldl (fun (acc : List String × List String) so =>
    let sent := sents.getD so.1 []
    let prevT := pyGetTriple sent ((so.2 : ℤ) - 1)
    let nextT := pyGetTriple sent ((so.2 : ℤ) + 1)
    let prev := prevT.1.toLower ++ gsep ++ prevT.2.1
    let next := nextT.1.toLower ++ gsep ++ nextT.2.1
    if nonPos then
      ((if sw.contains prevT.1 then acc.1 else acc.1 ++ [prev]),
       (if sw.contains nextT.1 then acc.2 else acc.2 ++ [next]))
    else (acc.1 ++ [prev], acc.2 ++ [next])) ([], [])
  match dir with
  | .left => lr.1
  | .right => lr.2
  | .all => lr.1 ++ lr.2

/-! ## The four construction passes of `word_graph.build_graph` -/

/-- Pass 1 (unambiguous non-stopword, non-punctuation words) at position `j`. -/
def pass1Step (sw : List String) (i : ℕ) (sent : List Triple)
    (gm : NodeList × List (Option GNode)) (j : ℕ) : NodeList × List (Option GNode) :=
  let t := sent.getD j ("", "", "")
  if sw.contains t.1 || isPunctTok t.1 then gm
  else
    let node := nodeOf t.1 t.2.1
    let k := ambiguous_nodes gm.1 node
    if k == 0 then (addNode gm.1 (node, 0) [(i, j)], gm.2.set j (some (node, 0)))
    else if k == 1 then
      let ids := (getInfo gm.1 (node, 0)).map (·.1)
      if !ids.contains i then
        (appendInfo gm.1 (node, 0) (i, j), gm.2.set j (some (node, 0)))
      else (addNode gm.1 (node, 1) [(i, j)], gm.2.set j (some (node, 1)))
    else gm

/-- Pass 2 (words with several candidate nodes, unresolved by pass 1) at
position `j`: score every candidate by context overlap and frequency and run
the selection loop; on success append the occurrence to the chosen node, else
create the next variant. -/
def pass2Step (sents : List (List Triple)) (sw : List String) (i : ℕ) (sent : List Triple)
    (gm : NodeList × List (Option GNode)) (j : ℕ) : NodeList × List (Option GNode) :=
  let t := sent.getD j ("", "", "")
  if sw.contains t.1 || isPunctTok t.1 then gm
  else if (gm.2.getD j none).isSome then gm
  else
    let node := nodeOf t.1 t.2.1
    let prevT := pyGetTriple sent ((j : ℤ) - 1)
    let nextT := pyGetTriple sent ((j : ℤ) + 1)
    let prev_node := nodeOf prevT.1 prevT.2.1
    let next_node := nodeOf nextT.1 nextT.2.1
    let k := ambiguous_nodes gm.1 node
    let overlap := (List.range k).map (fun l =>
      (get_directed_context sents sw gm.1 node l .left false).count prev_node
        + (get_directed_context sents sw gm.1 node l .right false).count next_node)
    let freq := (List.range k).map (fun l => (getInfo gm.1 (node, l)).length)
    match selectLoop overlap freq
        (fun s => ((getInfo gm.1 (node, s)).map (·.1)).contains i) with
    | some sel => (appendInfo gm.1 (node, sel) (i, j), gm.2.set j (some (node, sel)))
    | none => (addNode gm.1 (node, k) [(i, j)], gm.2.set j (some (node, k)))

/-- Pass 3 (stopwords) at position `j`: single-round selection by non-stopword
context overlap; reuse requires no same-sentence occurrence and a strictly
positive overlap. -/
def pass3Step (sents : List (List Triple)) (sw : List String) (i : ℕ) (sent : List Triple)
    (gm : NodeList × List (Option GNode)) (j : ℕ) : NodeList × List (Option GNode) :=
  let t := sent.getD j ("", "", "")
  if !sw.contains t.1 then gm
  else
    let node := nodeOf t.1 t.2.1
    let k := ambiguous_nodes gm.1 node
    if k == 0 then (addNode gm.1 (node, 0) [(i, j)], gm.2.set j (some (node, 0)))
    else
      let prevT := pyGetTriple sent ((j : ℤ) - 1)
      let nextT := pyGetTriple sent ((j : ℤ) + 1)
      let prev_node := nodeOf prevT.1 prevT.2.1
      let next_node := nodeOf nextT.1 nextT.2.1
      let overlap := (List.range k).map (fun l =>
        (get_directed_context sents sw gm.1 node l .left true).count prev_node
          + (get_directed_context sents sw gm.1 node l .right true).count next_node)
      let sel := max_index overlap
      let ids := (getInfo gm.1 (node, sel)).map (·.1)
      if !ids.contains i && overlap.getD sel 0 > 0 then
        (appendInfo gm.1 (node, sel) (i, j), gm.2.set j (some (node, sel)))
      else (addNode gm.1 (node, k) [(i, j)], gm.2.set j (some (node, k)))

/-- Pass 4 (punctuation) at position `j`: like pass 3 but with unfiltered
context and reuse threshold `overlap > 1`. -/
def pass4Step (sents : List (List Triple)) (sw : List String) (i : ℕ) (sent : List Triple)
    (gm : NodeList × List (Option GNode)) (j : ℕ) : NodeList × List (Option GNode) :=
  let t := sent.getD j ("", "", "")
  if !isPunctTok t.1 then gm
  else
    let node := nodeOf t.1 t.2.1
    let k := ambiguous_nodes gm.1 node
    if k == 0 then (addNode gm.1 (node, 0) [(i, j)], gm.2.set j (some (node, 0)))
    else
      let prevT := pyGetTriple sent ((j : ℤ) - 1)
      let nextT := pyGetTriple sent ((j : ℤ) + 1)
      let prev_node := nodeOf prevT.1 prevT.2.1
      let next_node := nodeOf nextT.1 nextT.2.1
      let overlap := (List.range k).map (fun l =>
        (get_directed_context sents sw gm.1 node l .left false).count prev_node
          + (get_directed_context sents sw gm.1 node l .right false).count next_node)
      let sel := max_index overlap
      let ids := (getInfo gm.1 (node, sel)).map (·.1)
      if !ids.contains i && overlap.getD sel 0 > 1 then
        (appendInfo gm.1 (node, sel) (i, j), gm.2.set j (some (node, sel)))
      else (addNode gm.1 (node, k) [(i, j)], gm.2.set j (some (node, k)))

/-- `self.graph.add_edge(a, b)` on the weightless edge list (networkx keeps a
single copy of a repeated edge). -/
def addEdgePre (es : List (GNode × GNode)) (a b : GNode) : List (GNode × GNode) :=
  if es.any (fun e => e.1 == a && e.2 == b) then es else es ++ [(a, b)]

/-- networkx `add_edge` creates missing endpoint nodes without attributes
(modelled as an empty `info`). -/
def addEdgeNodes (g : NodeList) (n : GNode) : NodeList :=
  if hasNode g n then g else g ++ [(n, [])]

/-- Add one sentence to the graph: the four passes in order, then the
sequential edges `mapping[j-1] -> mapping[j]`.  (In a completed run every
position is mapped; the `("", 0)` default stands for Python's untyped `0`
placeholder, which build runs never leave in `mapping`.) -/
def process_sentence (sents : List (List Triple)) (sw : List String)
    (acc : NodeList × List (GNode × GNode)) (i : ℕ) :
    NodeList × List (GNode × GNode) :=
  let sent := sents.getD i []
  let len := sent.length
  let m0 : List (Option GNode) := List.replicate len none
  let gm := (List.range len).foldl (pass1Step sw i sent) (acc.1, m0)
  let gm := (List.range len).foldl (pass2Step sents sw i sent) gm
  let gm := (List.range len).foldl (pass3Step sents sw i sent) gm
  let gm := (List.range len).foldl (pass4Step sents sw i sent) gm
  let step := fun (ge : NodeList × List (GNode × GNode)) (j : ℕ) =>
    let a := (gm.2.getD (j - 1) none).getD ("", 0)
    let b := (gm.2.getD j none).getD ("", 0)
    (addEdgeNodes (addEdgeNodes ge.1 a) b, addEdgePre ge.2 a b)
  ((List.range len).drop 1).foldl step (gm.1, acc.2)

/-- The node/edge construction part of `word_graph.build_graph` (before edge
weights are computed). -/
def build_graph_core (sents : List (List Triple)) (sw : List String) :
    NodeList × List (GNode × GNode) :=
  (List.range sents.length).foldl (process_sentence sents sw) ([], [])

/-! ## Edge weighting (`word_graph.get_edge_weight`) -/

/-- The per-sentence `diff` entry: all position differences of occurrence
pairs with node 1 strictly before node 2, then `1/min` of them, `0` when the
sentence has no such pair. -/
def ew_diff (info1 info2 : Info) (s : ℕ) : ℚ :=
  let pos_i := info1.filterMap (fun p => if p.1 == s then some p.2 else none)
  let pos_j := info2.filterMap (fun p => if p.1 == s then some p.2 else none)
  let all_diff := pos_i.foldl (fun (acc : List ℚ) (x : ℕ) =>
    acc ++ pos_j.filterMap (fun (y : ℕ) =>
      if (x : ℤ) - (y : ℤ) < 0 then some ((((y : ℤ) - (x : ℤ)) : ℤ) : ℚ) else none)) []
  if all_diff.isEmpty then 0 else 1 / minList all_diff

/-- `sum(diff)` over all sentences. -/
def ew_diff_sum (nSents : ℕ) (info1 info2 : Info) : ℚ :=
  ((List.range nSents).map (ew_diff info1 info2)).foldl (· + ·) 0

/-- `word_graph.get_edge_weight`.  Returns `0` whenever either term weight is
missing or zero; otherwise divides by `sum(diff)` with **no** guard, so a zero
sum is a `ZeroDivisionError`. -/
def get_edge_weight (tw : List (String × ℚ)) (nSents : ℕ) (g : NodeList)
    (node1 node2 : GNode) : Except PyErr ℚ :=
  let info1 := getInfo g node1
  let info2 := getInfo g node2
  let weight1 := (dlookup tw node1.1).getD 0
  let weight2 := (dlookup tw node2.1).getD 0
  if weight1 == 0 || weight2 == 0 then Except.ok 0
  else
    let dsum := ew_diff_sum nSents info1 info2
    if dsum == 0 then Except.error PyErr.zeroDivision
    else Except.ok ((weight1 + weight2) / dsum / (weight1 * weight2))

/-- The finished word graph: nodes with their occurrence lists, and directed
edges with their computed weights. -/
structure WGraph where
  nodes : NodeList
  edges : List ((GNode × GNode) × ℚ)
deriving DecidableEq

/-- The final loop of `build_graph`: compute and attach every edge's weight. -/
def finalize_edges (tw : List (String × ℚ)) (nSents : ℕ)
    (pre : NodeList × List (GNode × GNode)) : Except PyErr WGraph :=
  match pre.2.mapM (fun e =>
      (match get_edge_weight tw nSents pre.1 e.1 e.2 with
        | Except.error er => Except.error er
        | Except.ok w => Except.ok (e, w) : Except PyErr ((GNode × GNode) × ℚ))) with
  | .error e => .error e
  | .ok es => .ok ⟨pre.1, es⟩

/-- The state a `word_graph.__init__` call leaves behind (stopword loading,
an I/O collaborator, is replaced by the `sw` parameter). -/
structure WGState where
  sentence : List (List Triple)
  term_freq : List (String × ℕ)
  term_weight : List (String × ℚ)
  graph : WGraph
  nb_words : ℕ
  verbs : List String
deriving DecidableEq

/-- The English verb tag set of `word_graph.__init__` (with its duplicated
`VBZ` entry). -/
def enVerbs : List String :=
  ["VB", "VBD", "VBP", "VBZ", "VH", "VHD", "VHP", "VBZ", "VV", "VVD", "VVP", "VVZ"]

/-- `word_graph.__init__`: preprocess, statistics, graph construction. -/
def word_graph_init (sepc : Char) (sw : List String) (verbs : List String)
    (nb_words : ℕ) (raw : List String) : Except PyErr WGState :=
  match pre_process_sentences sepc raw with
  | .error e => .error e
  | .ok sents =>
    match compute_statistics sents with
    | .error e => .error e
    | .ok stats =>
      match finalize_edges stats.2 raw.length (build_graph_core sents sw) with
      | .error e => .error e
      | .ok g => .ok ⟨sents, stats.1, stats.2, g, nb_words, verbs⟩

/-! ## The k-shortest-paths search (`word_graph.k_shortest_paths`) -/

/-- A frontier label `(cumulative weight, node, visit id)`. -/
abbrev Entry := ℚ × GNode × ℕ

/-- Successor list (`self.graph.neighbors(n)`, in edge-insertion order). -/
def wNeighbors (g : WGraph) (n : GNode) : List GNode :=
  g.edges.filterMap (fun e => if e.1.1 == n then some e.1.2 else none)

def hasNodeW (g : WGraph) (n : GNode) : Bool := hasNode g.nodes n

/-- `self.graph[a][b]['weight']` (present for every edge after finalization). -/
def lookupWeight (g : WGraph) (a b : GNode) : ℚ :=
  ((g.edges.find? (fun e => e.1.1 == a && e.1.2 == b)).map (·.2)).getD 0

/-- Python string `<`: lexicographic comparison of the character sequences. -/
def strLtB (a b : String) : Bool := decide (a < b)

/-- Python tuple comparison on `(weight, (label, id), visit id)`. -/
def entryLt (a b : Entry) : Bool :=
  decide (a.1 < b.1) ||
    (a.1 == b.1 &&
      (strLtB a.2.1.1 b.2.1.1 ||
        (a.2.1.1 == b.2.1.1 &&
          (decide (a.2.1.2 < b.2.1.2) ||
            (a.2.1.2 == b.2.1.2 && decide (a.2.2 < b.2.2))))))

/-- `bisect.insort(orderedX, x)`: insert before the first strictly greater
entry (after equal ones). -/
def insortEntry (x : Entry) : List Entry → List Entry
  | [] => [x]
  | y :: ys => if entryLt x y then x :: y :: ys else y :: insortEntry x ys

/-- Statistics collected by the path-validation loop of `k_shortest_paths`. -/
structure PathStats where
  nbVerbs : ℕ
  wlen : ℕ
  paren : ℤ
  quotes : ℕ
  raw : String
deriving DecidableEq

/-- `s.split(self.sep)` unpacked into `(word, tag)` (the labels built by the
graph construction always split into exactly two parts). -/
def splitSep (s : String) : String × String :=
  let parts := s.splitOn gsep
  (parts.getD 0 "", parts.getD 1 "")

/-- One iteration of the validation loop: count verbs, count non-punctuation
words, track the parenthesis counter and quotation marks, and extend the raw
sentence string. -/
def checkTok (verbs : List String) (st : PathStats) (nd : GNode) : PathStats :=
  let wt := splitSep nd.1
  let st1 := if verbs.contains wt.2 then { st with nbVerbs := st.nbVerbs + 1 } else st
  let st2 :=
    if !isPunctTok wt.1 then { st1 with wlen := st1.wlen + 1 }
    else if wt.1 == "(" then { st1 with paren := st1.paren - 1 }
    else if wt.1 == ")" then { st1 with paren := st1.paren + 1 }
    else if wt.1 == "\"" then { st1 with quotes := st1.quotes + 1 }
    else st1
  { st2 with raw := st2.raw ++ wt.1 ++ " " }

/-- The candidate-path validation of `k_shortest_paths`: fold the check over
all but the last entry of the reversed path-so-far (`range(len(sp) - 1)`),
then test the four constraints.  Returns the verdict and the raw sentence
used for deduplication. -/
def validatePath (verbs : List String) (nbWords : ℕ) (sp : List GNode) : Bool × String :=
  let st := sp.dropLast.foldl (checkTok verbs) ⟨0, 0, 0, 0, ""⟩
  (decide (0 < st.nbVerbs) && decide (nbWords ≤ st.wlen) && st.paren == 0
    && st.quotes % 2 == 0, st.raw.trim)

/-- The search state of `k_shortest_paths`. -/
structure KSState where
  ksp : List (List GNode × ℚ)
  frontier : List Entry
  pathsMap : List (Entry × List GNode)
  visited : List (GNode × ℕ)
  sentCont : List String
deriving DecidableEq

/-- Processing of one successor `node` of the popped frontier entry
(`cur`, cumulative weight `w0`, reversed path-so-far `sp`). -/
def ksNeighbor (g : WGraph) (verbs : List String) (nbWords : ℕ) (endNode : GNode)
    (cur : GNode) (w0 : ℚ) (sp : List GNode) (st : KSState) (node : GNode) : KSState :=
  if sp.contains node then st
  else
    let w := w0 + lookupWeight g cur node
    if node == endNode then
      let vr := validatePath verbs nbWords sp
      if vr.1 && !st.sentCont.contains vr.2 then
        { st with ksp := st.ksp ++ [((node :: sp).reverse, w)],
                  sentCont := st.sentCont ++ [vr.2] }
      else st
    else
      let cnt := match dlookup st.visited node with
        | some c => c + 1
        | none => 0
      let entry : Entry := (w, node, cnt)
      { st with
        visited := (if st.visited.any (fun p => p.1 == node) then
            st.visited.map (fun p => if p.1 == node then (p.1, cnt) else p)
          else st.visited ++ [(node, cnt)]),
        frontier := insortEntry entry st.frontier,
        pathsMap := st.pathsMap ++ [(entry, node :: sp)] }

/-- The main loop of `k_shortest_paths`: while fewer than `k` accepted paths
and the frontier is nonempty, pop the least entry, look up and delete its
path, and process every successor (`neighbors` raises when the popped node is
not in the graph, which is how an empty graph surfaces). -/
def ksLoop (g : WGraph) (verbs : List String) (nbWords : ℕ) (endNode : GNode) (k : ℕ) :
    ℕ → KSState → Except PyErr (List (List GNode × ℚ))
  | 0, _ => Except.error PyErr.fuelOut
  | fuel + 1, st =>
    if st.ksp.length < k && !st.frontier.isEmpty then
      match st.frontier with
      | [] => Except.error PyErr.fuelOut
      | shortest :: rest =>
        let sp := (dlookup st.pathsMap shortest).getD []
        let st1 : KSState :=
          { st with frontier := rest,
                    pathsMap := st.pathsMap.filter (fun p => !(p.1 == shortest)) }
        if hasNodeW g shortest.2.1 then
          ksLoop g verbs nbWords endNode k fuel
            ((wNeighbors g shortest.2.1).foldl
              (ksNeighbor g verbs nbWords endNode shortest.2.1 shortest.1 sp) st1)
        else Except.error PyErr.nodeNotInGraph
    else Except.ok st.ksp

/-- `word_graph.k_shortest_paths(start, end, k)` with explicit fuel. -/
def k_shortest_paths (g : WGraph) (verbs : List String) (nbWords : ℕ)
    (startNode endNode : GNode) (k fuel : ℕ) : Except PyErr (List (List GNode × ℚ)) :=
  ksLoop g verbs nbWords endNode k fuel
    ⟨[], [(0, startNode, 0)], [((0, startNode, 0), [startNode])], [(startNode, 0)], []⟩

/-! ## Compression retrieval (`word_graph.get_compression`) -/

/-- The start sentinel node key. -/
def startKey : GNode := (startTok ++ gsep ++ startTok, 0)

/-- The end sentinel node key. -/
def stopKey : GNode := (stopTok ++ gsep ++ stopTok, 0)

/-- Build one fusion entry from a search result: the cumulative weight and the
path's `(word, POS)` pairs with the two sentinel nodes stripped. -/
def stripPath (pw : List GNode × ℚ) : ℚ × List (String × String) :=
  (pw.2, ((pw.1.drop 1).dropLast).map (fun nd => splitSep nd.1))

/-- Python `<` on lists of `(word, POS)` pairs (tuple/list lexicographic). -/
def pairLt (a b : String × String) : Bool :=
  strLtB a.1 b.1 || (a.1 == b.1 && strLtB a.2 b.2)

def sentenceLt : List (String × String) → List (String × String) → Bool
  | [], [] => false
  | [], _ :: _ => true
  | _ :: _, [] => false
  | a :: as, b :: bs => pairLt a b || (a == b && sentenceLt as bs)

/-- Python tuple `<` on fusion entries `(weight, sentence)`. -/
def fusionLt (a b : ℚ × List (String × String)) : Bool :=
  decide (a.1 < b.1) || (a.1 == b.1 && sentenceLt a.2 b.2)

/-- `bisect.insort(fusions, x)`. -/
def insortFusion (x : ℚ × List (String × String)) :
    List (ℚ × List (String × String)) → List (ℚ × List (String × String))
  | [] => [x]
  | y :: ys => if fusionLt x y then x :: y :: ys else y :: insortFusion x ys

/-- The fusion-building loop of `get_compression`: the first
`min(nb, len(paths))` search results, stripped and insort-ed. -/
def buildFusions (nb : ℕ) (ps : List (List GNode × ℚ)) :
    List (ℚ × List (String × String)) :=
  (ps.take nb).foldl (fun acc pw => insortFusion (stripPath pw) acc) []

/-- `word_graph.get_compression(nb_candidates)` on an initialized state. -/
def get_compression (st : WGState) (nb fuel : ℕ) :
    Except PyErr (List (ℚ × List (String × String))) :=
  match k_shortest_paths st.graph st.verbs st.nb_words startKey stopKey nb fuel with
  | .error e => .error e
  | .ok paths => .ok (buildFusions nb paths)

/-! ## The co-occurrence graph and TextRank
(`keyphrase_reranker.undirected_TextRank`) -/

/-- A co-occurrence graph node: a `(lowercased word, POS)` tuple. -/
abbrev KNode := String × String

/-- The undirected weighted co-occurrence graph: its node list and its edges
(each undirected edge listed once, with its weight). -/
structure CoGraph where
  nodes : List KNode
  adj : List ((KNode × KNode) × ℚ)
deriving DecidableEq

/-- `self.graph.neighbors_iter(n)` for an undirected networkx graph. -/
def coNeighbors (g : CoGraph) (n : KNode) : List KNode :=
  g.adj.filterMap (fun e =>
    if e.1.1 == n then some e.1.2
    else if e.1.2 == n then some e.1.1
    else none)

/-- `self.graph[a][b]['weight']` on the undirected graph. -/
def coWeight (g : CoGraph) (a b : KNode) : ℚ :=
  ((g.adj.find? (fun e => (e.1.1 == a && e.1.2 == b) || (e.1.1 == b && e.1.2 == a))).map
    (·.2)).getD 0

/-- `sum_wjk`: total edge weight at node `j`. -/
def sumWjk (g : CoGraph) (j : KNode) : ℚ :=
  (coNeighbors g j).foldl (fun s k => s + coWeight g j k) 0

/-- One full synchronous TextRank sweep: every node's new score is computed
from the previous sweep's scores (the code writes into `word_scores` while
reading neighbor scores from the pre-sweep copy `current_node_scores`). -/
def tr_sweep (g : CoGraph) (d : ℚ) (s : KNode → ℚ) : KNode → ℚ := fun n =>
  if g.nodes.contains n then
    (1 - d) + d * ((coNeighbors g n).foldl
      (fun acc j => acc + coWeight g j n * s j / sumWjk g j) 0)
  else s n

/-- `word_scores` after `k` sweeps from the all-ones initialization. -/
def tr_sweeps (g : CoGraph) (d : ℚ) : ℕ → KNode → ℚ
  | 0 => fun _ => 1
  | k + 1 => tr_sweep g d (tr_sweeps g d k)

/-- `max(score_difference, score_difference)` after one sweep: the score delta
of the **last** node in iteration order, or the previous value when the graph
has no nodes (the loop body never runs). -/
def tr_sweep_diff (g : CoGraph) (d : ℚ) (s : KNode → ℚ) (old : ℚ) : ℚ :=
  match g.nodes.getLast? with
  | none => old
  | some nl => |tr_sweep g d s nl - s nl|

/-- The `while (max_node_difference >= f_conv)` loop with explicit fuel
(`none` = still running after `fuel` sweeps). -/
def trLoop (g : CoGraph) (d fconv : ℚ) : ℕ → (KNode → ℚ) → ℚ → Option (KNode → ℚ)
  | 0, _, _ => none
  | fuel + 1, s, md =>
    if fconv ≤ md then trLoop g d fconv fuel (tr_sweep g d s) (tr_sweep_diff g d s md)
    else some s

/-- `keyphrase_reranker.undirected_TextRank(d, f_conv)`: scores start at 1,
`max_node_difference` starts at `f_conv`. -/
def undirected_TextRank (g : CoGraph) (d fconv : ℚ) (fuel : ℕ) : Option (KNode → ℚ) :=
  trLoop g d fconv fuel (fun _ => 1) fconv

/-! ## Keyphrase clustering (`keyphrase_reranker.cluster_keyphrase_candidates`,
the cluster-formation phase, lines 1246-1280) -/

/-- The word set of a keyphrase, as a list (`set(kp.split(' '))` compared via
`difference == empty`, i.e. subset). -/
def kpWords (kp : String) : List String := kp.splitOn " "

/-- `keyphrase_words.difference(cluster_words) == empty`: every word of `kp`
occurs in the representative `rep`. -/
def coveredBy (kp rep : String) : Bool :=
  (kpWords kp).all (fun w => (kpWords rep).contains w)

/-- Process one keyphrase against the clusters built so far: append it to
**every** cluster whose representative covers it (the Python loop sets
`found_cluster` but never breaks), else open a new cluster keyed by it. -/
def assignKeyphrase (clusters : List (String × List String)) (kp : String) :
    List (String × List String) :=
  if clusters.any (fun c => coveredBy kp c.1) then
    clusters.map (fun c => if coveredBy kp c.1 then (c.1, c.2 ++ [kp]) else c)
  else clusters ++ [(kp, [kp])]

/-- The cluster-formation loop over keyphrases in processing order. -/
def buildClusters (kps : List String) : List (String × List String) :=
  kps.foldl assignKeyphrase []

/-- `sorted(candidates, key=len(candidate tokens), reverse=True)` (stable) and
then the cluster-formation loop, from the candidate map. -/
def cluster_formation (cands : List (String × List (String × String))) :
    List (String × List String) :=
  let descending := (cands.mergeSort (fun a b => b.2.length ≤ a.2.length)).map (·.1)
  buildClusters descending

/-! ## The frame model for `__init__` list copying (claim C10) -/

/-- A Python value a sentence-list cell can hold: the raw annotated string, a
preprocessed triple list (word_graph), or a `(word, POS)` pair list
(keyphrase_reranker). -/
inductive PyVal where
  | str : String → PyVal
  | toks : List Triple → PyVal
  | pairs : List (String × String) → PyVal
deriving DecidableEq

/-- A heap of Python list objects; a reference is an index. -/
abbrev Heap := List (List PyVal)

/-- The effect of `pre_process_sentences` on one cell element: a raw string is
replaced by its structured sentence.  (On a parse failure Python raises and no
further cell is written; either way no other list object is touched.) -/
def preprocessCell (sepc : Char) (v : PyVal) : PyVal :=
  match v with
  | .str s =>
    match pre_process_one sepc s with
    | .ok ts => .toks ts
    | .error _ => .str s
  | other => other

/-- The heap effect of `word_graph.__init__`: `self.sentence =
list(sentence_list)` allocates a fresh list object with the same elements, and
preprocessing rewrites the elements of that fresh object only.  Returns the
new heap and the reference held by `self.sentence`. -/
def word_graph_init_heap (sepc : Char) (h : Heap) (r : ℕ) : Heap × ℕ :=
  let rNew := h.length
  let h1 := h ++ [h.getD r []]
  (h1.set rNew ((h.getD r []).map (preprocessCell sepc)), rNew)

/-- `keyphrase_reranker.wordpos_to_tuple`: the anchored greedy regex
`(.+) sep (.+)` splits at the last separator with nonempty sides; Python
raises on no match, modelled by a pair of empty strings. -/
def wordpos_to_tuple (sepc : Char) (w : String) : String × String :=
  let cs := w.toList
  let seps := (List.range cs.length).filter
    (fun q => cs.getD q ' ' == sepc && 1 ≤ q && q + 1 < cs.length)
  match seps.max? with
  | some p => ((String.mk (cs.take p)).toLower, String.mk (cs.drop (p + 1)))
  | none => ("", "")

/-- The effect of the sentence-rewriting part of `keyphrase_reranker.build_graph`
on one cell element: tokenize into `(word, POS)` pairs, retagging stopwords. -/
def krTokenizeCell (sepc : Char) (sw : List String) (v : PyVal) : PyVal :=
  match v with
  | .str s =>
    .pairs (((norm_spaces s).splitOn " ").map (fun w =>
      let tp := wordpos_to_tuple sepc w
      if sw.contains tp.1 then (tp.1, "STOPWORD") else tp))
  | other => other

/-- The heap effect of `keyphrase_reranker.__init__`: `self.sentences =
list(sentence_list)`, then `build_graph` rewrites the elements of the fresh
object only. -/
def keyphrase_reranker_init_heap (sepc : Char) (sw : List String) (h : Heap) (r : ℕ) :
    Heap × ℕ :=
  let rNew := h.length
  let h1 := h ++ [h.getD r []]
  (h1.set rNew ((h.getD r []).map (krTokenizeCell sepc sw)), rNew)

/-! ## Claim-side predicates and concrete fixtures -/

/-- The non-sentinel words of a returned path, in start-to-end order. -/
def innerWords (p : List GNode) : List String :=
  ((p.drop 1).dropLast).map (fun nd => (splitSep nd.1).1)

/-- Proper parenthesis nesting of a word sequence, as claim C6 states it:
scanning left to right, a closing parenthesis must match an earlier opening
one, and the counter must return to zero (so every opening parenthesis has a
matching **later** closing one). -/
def parenScan : List String → ℤ → Bool
  | [], c => c == 0
  | w :: ws, c =>
    if w == "(" then parenScan ws (c + 1)
    else if w == ")" then decide (0 < c) && parenScan ws (c - 1)
    else parenScan ws c

/-- Position of the last update of the running-argmax scan with initial
maximum `mv`: the first element exceeding `mv` and at least every later
element.  (Proof support for relating `max_index` to `leftmostMax`.) -/
def firstBig (mv : ℕ) : List ℕ → ℕ
  | [] => 0
  | x :: xs => if mv < x ∧ lmaxN xs ≤ x then 0 else 1 + firstBig (max mv x) xs

def defaultWGState : WGState := ⟨[], [], [], ⟨[], []⟩, 0, []⟩

/-- The word-graph state built from the single sentence `a/NN/1`. -/
def wgA : WGState :=
  ((word_graph_init '/' [] enVerbs 1 ["a/NN/1"]).toOption).getD defaultWGState

/-- One sentence whose only path through the word graph closes a parenthesis
before opening one. -/
def rawC6 : List String := [")/PUNCT/1 a/NN/1 is/VBZ/1 b/NN/1 (/PUNCT/1"]

/-- The word-graph state built from `rawC6` (minimum word count 1). -/
def wg6 : WGState :=
  ((word_graph_init '/' [] enVerbs 1 rawC6).toOption).getD defaultWGState

/-- The single path the search accepts on `wg6`. -/
def path6 : List GNode :=
  [("-start-/-/-start-", 0), (")/-/PUNCT", 0), ("a/-/NN", 0), ("is/-/VBZ", 0),
   ("b/-/NN", 0), ("(/-/PUNCT", 0), ("-end-/-/-end-", 0)]

/-- The word-graph state built from the empty sentence list. -/
def stC2 : WGState :=
  ((word_graph_init '/' [] enVerbs 8 []).toOption).getD defaultWGState

/-- A co-occurrence graph with a single isolated node. -/
def gIso : CoGraph := ⟨[("a", "NN")], []⟩

/-- Keyphrase candidates (with their token lists) already in descending word
count, where the one-word candidate `b` is covered by both two-word
representatives. -/
def candsC5 : List (String × List (String × String)) :=
  [("a b", [("a", "NN"), ("b", "NN")]),
   ("b c", [("b", "NN"), ("c", "NN")]),
   ("b", [("b", "NN")])]

/-- Term weights for the edge-weight examples: both labels weigh 1. -/
def twC1 : List (String × ℚ) := [("u/-/NN", 1), ("v/-/NN", 1)]

/-- A node list in which node `u` occurs only **after** node `v` in the single
sentence, so every position difference is positive and `diff_sum = 0`. -/
def gC1 : NodeList := [(("u/-/NN", 0), [(0, 5)]), (("v/-/NN", 0), [(0, 3)])]

/-- A node list in which `u` immediately precedes `v`, as for a real edge. -/
def gC1adj : NodeList := [(("u/-/NN", 0), [(0, 1)]), (("v/-/NN", 0), [(0, 2)])]

/-- Heap fixture for the frame-effect witness. -/
def hC10 : Heap := [[PyVal.str "a/NN/1"]]

/-! # Theorems -/

/-! ## Generic helpers -/

theorem foldl_preserve {α β : Type} {P : α → Prop} {step : α → β → α}
    (hstep : ∀ a b, P a → P (step a b)) :
    ∀ (l : List β) (a : α), P a → P (l.foldl step a) := by
  intro l
  induction l with
  | nil => intro a h; exact h
  | cons x xs ih => intro a h; exact ih _ (hstep a x h)

theorem lmaxN_cons (x : ℕ) (xs : List ℕ) : lmaxN (x :: xs) = max x (lmaxN xs) := rfl

theorem lmaxN_mem (l : List ℕ) (h : l ≠ []) : lmaxN l ∈ l := by
  induction l with
  | nil => exact absurd rfl h
  | cons x xs ih =>
    rw [lmaxN_cons]
    cases xs with
    | nil => simp [lmaxN]
    | cons y ys =>
      rcases Nat.le_total (lmaxN (y :: ys)) x with h2 | h2
      · rw [max_eq_left h2]; exact List.mem_cons_self _ _
      · rw [max_eq_right h2]; exact List.mem_cons_of_mem _ (ih (by simp))

theorem maxIndexGo_eq (l : List ℕ) : ∀ (z mv mi : ℕ),
    maxIndexGo l z mv mi = if mv < lmaxN l then z + firstBig mv l else mi := by
  induction l with
  | nil => intro z mv mi; simp [maxIndexGo, lmaxN]
  | cons x xs ih =>
    intro z mv mi
    simp only [maxIndexGo, lmaxN_cons, firstBig]
    by_cases h : mv < x
    · by_cases h2 : lmaxN xs ≤ x
      · have hnx : ¬ x < lmaxN xs := not_lt.2 h2
        simp [h, h2, ih, hnx, lt_of_lt_of_le h (le_max_left x (lmaxN xs))]
      · have h3 : x < lmaxN xs := lt_of_not_le h2
        have hx : mv < max x (lmaxN xs) := lt_of_lt_of_le h (le_max_left _ _)
        simp [h, h2, ih, h3, hx, max_eq_right h.le]
        omega
    · by_cases h2 : mv < lmaxN xs
      · have hx : mv < max x (lmaxN xs) := lt_of_lt_of_le h2 (le_max_right _ _)
        simp [h, ih, h2, hx, max_eq_left (not_lt.1 h)]
        omega
      · have hx : ¬ mv < max x (lmaxN xs) := not_lt.2 (max_le (not_lt.1 h) (not_lt.1 h2))
        simp [h, ih, h2, hx]

theorem firstBig_eq_indexOf (l : List ℕ) : ∀ mv, mv < lmaxN l →
    firstBig mv l = l.indexOf (lmaxN l) := by
  induction l with
  | nil => intro mv h; simp [lmaxN] at h
  | cons x xs ih =>
    intro mv h
    simp only [firstBig]
    by_cases hc : mv < x ∧ lmaxN xs ≤ x
    · rw [if_pos hc]
      have hx : lmaxN (x :: xs) = x := by rw [lmaxN_cons]; exact max_eq_left hc.2
      rw [hx, List.indexOf_cons_self]
    · rw [if_neg hc]
      have hx : x < lmaxN xs := by
        rcases not_and_or.1 hc with h1 | h2
        · by_contra hnot
          have hle : lmaxN xs ≤ x := not_lt.1 hnot
          have heq : lmaxN (x :: xs) = x := by rw [lmaxN_cons]; exact max_eq_left hle
          rw [heq] at h
          exact h1 h
        · exact lt_of_not_le h2
      have hcons : lmaxN (x :: xs) = lmaxN xs := by rw [lmaxN_cons]; exact max_eq_right hx.le
      rw [hcons] at h ⊢
      rw [List.indexOf_cons_ne _ (ne_of_lt hx)]
      have hmax : max mv x < lmaxN xs := max_lt h hx
      rw [ih (max mv x) hmax]
      omega

theorem max_index_eq_leftmostMax : ∀ l : List ℕ, max_index l = leftmostMax l := by
  intro l
  cases l with
  | nil => rfl
  | cons x xs =>
    simp only [max_index, leftmostMax]
    rw [maxIndexGo_eq]
    by_cases h : x < lmaxN xs
    · rw [if_pos h]
      have hcons : lmaxN (x :: xs) = lmaxN xs := by rw [lmaxN_cons]; exact max_eq_right h.le
      rw [hcons, List.indexOf_cons_ne _ (ne_of_lt h), firstBig_eq_indexOf xs x h]
      omega
    · rw [if_neg h]
      have hx : lmaxN (x :: xs) = x := by rw [lmaxN_cons]; exact max_eq_left (not_lt.1 h)
      rw [hx, List.indexOf_cons_self]

theorem getD_max_index (x : ℕ) (xs : List ℕ) :
    (x :: xs).getD (max_index (x :: xs)) 1 = lmaxN (x :: xs) := by
  rw [max_index_eq_leftmostMax]
  have hmem : lmaxN (x :: xs) ∈ x :: xs := lmaxN_mem _ (by simp)
  have hlt : (x :: xs).indexOf (lmaxN (x :: xs)) < (x :: xs).length :=
    List.indexOf_lt_length.2 hmem
  rw [leftmostMax, List.getD_eq_getElem?_getD, List.getElem?_eq_getElem hlt,
    List.getElem_indexOf hlt, Option.getD_some]

theorem selectLoopGo_sound : ∀ (fuel : ℕ) (o f : List ℕ) (c : ℕ → Bool) (s : ℕ),
    selectLoopGo fuel o f c = some s → c s = false := by
  intro fuel
  induction fuel with
  | zero => intro o f c s h; cases o <;> simp [selectLoopGo] at h
  | succ n ih =>
    intro o f c s h
    cases o with
    | nil => simp [selectLoopGo] at h
    | cons x xs =>
      simp only [selectLoopGo] at h
      by_cases h0 : ((x :: xs).getD (max_index (x :: xs)) 1 == 0) = true
      · rw [if_pos h0] at h
        by_cases hc : c (max_index f) = true
        · rw [if_pos hc] at h
          by_cases he : ((x :: xs).eraseIdx (max_index f)).isEmpty = true
          · rw [if_pos he] at h; cases h
          · rw [if_neg he] at h; exact ih _ _ _ _ h
        · rw [if_neg hc] at h; cases h; simpa using hc
      · rw [if_neg h0] at h
        by_cases hc : c (max_index (x :: xs)) = true
        · rw [if_pos hc] at h
          by_cases he : ((x :: xs).eraseIdx (max_index (x :: xs))).isEmpty = true
          · rw [if_pos he] at h; cases h
          · rw [if_neg he] at h; exact ih _ _ _ _ h
        · rw [if_neg hc] at h; cases h; simpa using hc

theorem selectLoopGo_eq_amended : ∀ (fuel : ℕ) (o f : List ℕ) (c : ℕ → Bool),
    selectLoopGo fuel o f c = amendedSelectGo fuel o f c := by
  intro fuel
  induction fuel with
  | zero => intro o f c; cases o <;> rfl
  | succ n ih =>
    intro o f c
    cases o with
    | nil => rfl
    | cons x xs =>
      simp only [selectLoopGo, amendedSelectGo]
      have hs : (if ((x :: xs).getD (max_index (x :: xs)) 1 == 0) = true then max_index f
          else max_index (x :: xs)) = pickIdx (x :: xs) f := by
        rw [getD_max_index, pickIdx, max_index_eq_leftmostMax, max_index_eq_leftmostMax]
      rw [hs, ih]

/-! ## Claim C4 -/

/-- C4, counterexample: with overlap scores `[2, 2]` and frequencies `[1, 5]`
and no same-sentence collisions, the claim's tie-breaking rule (highest
overlap, ties broken by frequency) selects variant 1, but the code's selection
loop attaches variant 0: overlap ties are **not** broken by frequency. -/
theorem pass2_tiebreak_counterexample :
    selectLoop [2, 2] [1, 5] (fun _ => false) = some 0 ∧
    claimedPick [2, 2] [1, 5] = 1 := by
  constructor
  · decide
  · decide

/-- C4, amended: in pass 2 the attached variant is chosen by the selection
loop `selectLoop`, which behaves as follows (`amendedSelect`): in each round
select the lowest-index candidate with the highest context-overlap score —
occurrence-count frequency is consulted only when that highest overlap is
zero, in which case the lowest-index most-frequent candidate is selected; when
the selected candidate already has an occurrence from the current sentence,
its entry is deleted from both candidate lists and selection repeats over the
re-indexed remainder (so later collision checks address variants by their
position in the shrunk lists); when the lists are exhausted the loop fails and
a new variant is created. -/
theorem build_graph_pass2_selection (o f : List ℕ) (c : ℕ → Bool) :
    selectLoop o f c = amendedSelect o f c :=
  selectLoopGo_eq_amended o.length o f c

/-! ## Claims C3 and C9 (TextRank) -/

theorem tr_sweep_isolated (g : CoGraph) (d : ℚ) (s : KNode → ℚ) (n : KNode)
    (hmem : g.nodes.contains n = true) (hiso : coNeighbors g n = []) :
    tr_sweep g d s n = 1 - d := by
  have hm : n ∈ g.nodes := by simpa using hmem
  simp [tr_sweep, hm, hiso]

/-- C3, amended: in `undirected_TextRank`, an isolated (degree-zero) node of
the co-occurrence graph has score `1 - d` (so `0.15` at the default damping
`d = 0.85`), not `1.0`, after every sweep from the first onward — and hence
also in the final scores whenever the loop terminates.  (Before the first
sweep the initialization value is `1.0`, but the loop always runs at least one
sweep.) -/
theorem textrank_isolated_node_score (g : CoGraph) (d fconv : ℚ) (n : KNode)
    (hmem : g.nodes.contains n = true) (hiso : coNeighbors g n = []) :
    (∀ k, 1 ≤ k → tr_sweeps g d k n = 1 - d) ∧
    (∀ fuel s, undirected_TextRank g d fconv fuel = some s → s n = 1 - d) := by
  constructor
  · intro k hk
    cases k with
    | zero => omega
    | succ j => exact tr_sweep_isolated g d _ n hmem hiso
  · have main : ∀ (fuel : ℕ) (s0 : KNode → ℚ) (md : ℚ),
        (s0 n = 1 - d ∨ fconv ≤ md) →
        ∀ s, trLoop g d fconv fuel s0 md = some s → s n = 1 - d := by
      intro fuel
      induction fuel with
      | zero => intro s0 md _ s h; cases h
      | succ m ih =>
        intro s0 md hd s h
        simp only [trLoop] at h
        by_cases hcond : fconv ≤ md
        · rw [if_pos hcond] at h
          exact ih _ _ (Or.inl (tr_sweep_isolated g d s0 n hmem hiso)) s h
        · rw [if_neg hcond] at h
          cases h
          rcases hd with h1 | h2
          · exact h1
          · exact absurd h2 hcond
    intro fuel s h
    exact main fuel _ fconv (Or.inr le_rfl) s h

/-- C3, witness: on the one-node edgeless graph `gIso`, the isolated node's
score after the first sweep is `1 - d`. -/
theorem textrank_isolated_node_score_witness :
    tr_sweeps gIso (17/20) 1 ("a", "NN") = 1 - 17/20 :=
  (textrank_isolated_node_score gIso (17/20) (1/10000) ("a", "NN")
    (by decide) (by decide)).1 1 le_rfl

/-- C3, counterexample: on `gIso` the isolated node's score after a sweep is
`0.15`, not `1.0` as the claim states. -/
theorem textrank_isolated_counterexample :
    tr_sweeps gIso (17/20) 1 ("a", "NN") = 3/20 ∧ ((3 : ℚ)/20) ≠ 1 := by
  constructor
  · with_unfolding_all rfl
  · with_unfolding_all decide

theorem trLoop_empty_nodes (g : CoGraph) (d fconv : ℚ) (hg : g.nodes = []) :
    ∀ (fuel : ℕ) (s : KNode → ℚ) (md : ℚ), fconv ≤ md →
    trLoop g d fconv fuel s md = none := by
  intro fuel
  induction fuel with
  | zero => intro s md _; rfl
  | succ m ih =>
    intro s md hmd
    simp only [trLoop]
    rw [if_pos hmd]
    apply ih
    have hdiff : tr_sweep_diff g d s md = md := by simp [tr_sweep_diff, hg]
    rw [hdiff]
    exact hmd

/-- C9: on a co-occurrence graph with no nodes, a TextRank sweep never updates
`max_node_difference` from its initial value `f_conv`, the loop condition
`max_node_difference >= f_conv` stays true, and `undirected_TextRank` — and
with it the `keyphrase_reranker` constructor, which calls it unconditionally —
never terminates: no amount of fuel makes the loop return. -/
theorem undirected_TextRank_empty_graph_diverges (g : CoGraph) (d fconv : ℚ)
    (fuel : ℕ) (hg : g.nodes = []) : undirected_TextRank g d fconv fuel = none :=
  trLoop_empty_nodes g d fconv hg fuel _ fconv le_rfl

/-- C9, witness: the loop is still running after 7 sweeps on the empty graph
at the default parameters. -/
theorem undirected_TextRank_empty_graph_diverges_witness :
    undirected_TextRank ⟨[], []⟩ (17/20) (1/10000) 7 = none :=
  undirected_TextRank_empty_graph_diverges ⟨[], []⟩ (17/20) (1/10000) 7 rfl

/-! ## Claim C1 (edge weight) -/

theorem minList_pos (l : List ℚ) (hpos : ∀ x ∈ l, 0 < x) (hne : l ≠ []) :
    0 < minList l := by
  induction l with
  | nil => exact absurd rfl hne
  | cons x xs ih =>
    cases xs with
    | nil => exact hpos x (by simp)
    | cons y ys =>
      rw [minList]
      exact lt_min (hpos x (by simp))
        (ih (fun z hz => hpos z (List.mem_cons_of_mem _ hz)) (by simp))

theorem mem_foldl_append {α β : Type} (f : α → List β) :
    ∀ (l : List α) (acc : List β) (z : β),
      z ∈ l.foldl (fun a x => a ++ f x) acc ↔ z ∈ acc ∨ ∃ x ∈ l, z ∈ f x := by
  intro l
  induction l with
  | nil => intro acc z; simp
  | cons x xs ih =>
    intro acc z
    rw [List.foldl_cons, ih]
    simp only [List.mem_append, List.mem_cons]
    constructor
    · rintro ((h | h) | ⟨w, hw, hz⟩)
      · exact Or.inl h
      · exact Or.inr ⟨x, Or.inl rfl, h⟩
      · exact Or.inr ⟨w, Or.inr hw, hz⟩
    · rintro (h | ⟨w, (rfl | hw), hz⟩)
      · exact Or.inl (Or.inl h)
      · exact Or.inl (Or.inr hz)
      · exact Or.inr ⟨w, hw, hz⟩

/-- Every entry of the `all_diff` container is strictly positive. -/
theorem ew_all_diff_pos (pos_i pos_j : List ℕ) (z : ℚ)
    (hz : z ∈ pos_i.foldl (fun (acc : List ℚ) (x : ℕ) =>
      acc ++ pos_j.filterMap (fun (y : ℕ) =>
        if (x : ℤ) - (y : ℤ) < 0 then some ((((y : ℤ) - (x : ℤ)) : ℤ) : ℚ) else none)) []) :
    0 < z := by
  rw [mem_foldl_append] at hz
  rcases hz with h | ⟨x, _, hz⟩
  · simp at h
  · rw [List.mem_filterMap] at hz
    obtain ⟨y, _, hy⟩ := hz
    by_cases hlt : (x : ℤ) - (y : ℤ) < 0
    · rw [if_pos hlt] at hy
      cases hy
      have : (0 : ℤ) < (y : ℤ) - (x : ℤ) := by omega
      exact_mod_cast this
    · rw [if_neg hlt] at hy
      cases hy

theorem ew_diff_nonneg (info1 info2 : Info) (s : ℕ) : 0 ≤ ew_diff info1 info2 s := by
  rw [ew_diff]
  split
  · exact le_refl 0
  · rename_i hne
    refine le_of_lt (div_pos one_pos (minList_pos _ (fun z hz => ew_all_diff_pos _ _ z hz) ?_))
    simpa [List.isEmpty_iff] using hne

/-- When node 1 occupies position `p` and node 2 position `p + 1` of sentence
`s`, the `all_diff` container of that sentence is nonempty. -/
theorem all_diff_has_entry (pos_i pos_j : List ℕ) (p : ℕ)
    (hpi : p ∈ pos_i) (hpj : p + 1 ∈ pos_j) :
    pos_i.foldl (fun (acc : List ℚ) (x : ℕ) =>
      acc ++ pos_j.filterMap (fun (y : ℕ) =>
        if (x : ℤ) - (y : ℤ) < 0 then some ((((y : ℤ) - (x : ℤ)) : ℤ) : ℚ) else none)) [] ≠ [] := by
  apply List.ne_nil_of_mem (a := ((((p + 1 : ℕ) : ℤ) - ((p : ℕ) : ℤ) : ℤ) : ℚ))
  rw [mem_foldl_append]
  refine Or.inr ⟨p, hpi, ?_⟩
  rw [List.mem_filterMap]
  refine ⟨p + 1, hpj, ?_⟩
  rw [if_pos (by omega)]

theorem ew_diff_pos_of_adjacent (info1 info2 : Info) (s p : ℕ)
    (hp : (s, p) ∈ info1) (hq : (s, p + 1) ∈ info2) : 0 < ew_diff info1 info2 s := by
  have hpi : p ∈ info1.filterMap (fun q => if q.1 == s then some q.2 else none) :=
    List.mem_filterMap.2 ⟨(s, p), hp, by simp⟩
  have hpj : p + 1 ∈ info2.filterMap (fun q => if q.1 == s then some q.2 else none) :=
    List.mem_filterMap.2 ⟨(s, p + 1), hq, by simp⟩
  have hne := all_diff_has_entry _ _ p hpi hpj
  rw [ew_diff]
  rw [if_neg (by simpa [List.isEmpty_iff] using hne)]
  exact div_pos one_pos (minList_pos _ (fun z hz => ew_all_diff_pos _ _ z hz) hne)

theorem foldl_add_shift (l : List ℚ) : ∀ c : ℚ, l.foldl (· + ·) c = c + l.foldl (· + ·) 0 := by
  induction l with
  | nil => intro c; simp
  | cons x xs ih =>
    intro c
    rw [List.foldl_cons, List.foldl_cons, ih (c + x), ih (0 + x)]
    ring

theorem ew_diff_sum_pos (nSents : ℕ) (info1 info2 : Info) (s p : ℕ) (hs : s < nSents)
    (hp : (s, p) ∈ info1) (hq : (s, p + 1) ∈ info2) :
    0 < ew_diff_sum nSents info1 info2 := by
  rw [ew_diff_sum, ← List.sum_eq_foldl]
  have hmem : ew_diff info1 info2 s ∈ (List.range nSents).map (ew_diff info1 info2) :=
    List.mem_map_of_mem _ (List.mem_range.2 hs)
  have hle : ew_diff info1 info2 s ≤ ((List.range nSents).map (ew_diff info1 info2)).sum :=
    List.single_le_sum (by
      intro x hx
      rw [List.mem_map] at hx
      obtain ⟨t, _, rfl⟩ := hx
      exact ew_diff_nonneg info1 info2 t) _ hmem
  exact lt_of_lt_of_le (ew_diff_pos_of_adjacent info1 info2 s p hp hq) hle

/-- C1, amended: when both term weights are nonzero, `get_edge_weight` returns
`(w1 + w2) / diff_sum / (w1 * w2)` **provided** `diff_sum` is nonzero; when
`diff_sum = 0` there is no guard and the division raises `ZeroDivisionError`.
For a pair of nodes adjacent in some sentence — as the two endpoints of every
edge `build_graph` creates are — `diff_sum` is strictly positive, so the
formula applies and the error cannot occur on real edges. -/
theorem get_edge_weight_characterization (tw : List (String × ℚ)) (nSents : ℕ)
    (g : NodeList) (n1 n2 : GNode)
    (h1 : (dlookup tw n1.1).getD 0 ≠ 0) (h2 : (dlookup tw n2.1).getD 0 ≠ 0) :
    (ew_diff_sum nSents (getInfo g n1) (getInfo g n2) ≠ 0 →
      get_edge_weight tw nSents g n1 n2 =
        Except.ok ((((dlookup tw n1.1).getD 0) + ((dlookup tw n2.1).getD 0))
          / ew_diff_sum nSents (getInfo g n1) (getInfo g n2)
          / (((dlookup tw n1.1).getD 0) * ((dlookup tw n2.1).getD 0)))) ∧
    (ew_diff_sum nSents (getInfo g n1) (getInfo g n2) = 0 →
      get_edge_weight tw nSents g n1 n2 = Except.error PyErr.zeroDivision) ∧
    ((∃ s p, s < nSents ∧ (s, p) ∈ getInfo g n1 ∧ (s, p + 1) ∈ getInfo g n2) →
      0 < ew_diff_sum nSents (getInfo g n1) (getInfo g n2)) := by
  refine ⟨?_, ?_, ?_⟩
  · intro hd
    rw [get_edge_weight, if_neg (by simp [h1, h2]), if_neg (by simpa using hd)]
  · intro hd
    rw [get_edge_weight, if_neg (by simp [h1, h2]), if_pos (by simpa using hd)]
  · rintro ⟨s, p, hs, hp, hq⟩
    exact ew_diff_sum_pos nSents _ _ s p hs hp hq

/-- C1, witness: on the adjacent pair `gC1adj` with both weights 1,
`diff_sum = 1` and the weight is `(1 + 1) / 1 / (1 * 1) = 2`. -/
theorem get_edge_weight_characterization_witness :
    get_edge_weight twC1 1 gC1adj ("u/-/NN", 0) ("v/-/NN", 0) = Except.ok 2 ∧
    0 < ew_diff_sum 1 (getInfo gC1adj ("u/-/NN", 0)) (getInfo gC1adj ("v/-/NN", 0)) := by
  have h := get_edge_weight_characterization twC1 1 gC1adj ("u/-/NN", 0) ("v/-/NN", 0)
    (by with_unfolding_all decide) (by with_unfolding_all decide)
  constructor
  · rw [h.1 (by with_unfolding_all decide)]
    with_unfolding_all rfl
  · exact h.2.2 ⟨0, 1, by omega, by with_unfolding_all decide, by with_unfolding_all decide⟩

/-- C1, counterexample: with both term weights 1 but the occurrences ordered
so that node 1 never precedes node 2, `diff_sum = 0`, and `get_edge_weight`
raises `ZeroDivisionError` instead of returning 0 as the claim states. -/
theorem get_edge_weight_no_guard_counterexample :
    ew_diff_sum 1 (getInfo gC1 ("u/-/NN", 0)) (getInfo gC1 ("v/-/NN", 0)) = 0 ∧
    get_edge_weight twC1 1 gC1 ("u/-/NN", 0) ("v/-/NN", 0) =
      Except.error PyErr.zeroDivision := by
  constructor
  · with_unfolding_all rfl
  · with_unfolding_all rfl

/-! ## Claim C2 (empty sentence list) -/

/-- On a graph with no nodes, the first iteration of the search loop pops the
start label and asks for the successors of a node that is not in the graph. -/
theorem k_shortest_paths_empty_graph (g : WGraph) (hg : g.nodes = [])
    (verbs : List String) (nbw : ℕ) (startN endN : GNode) (k fuel : ℕ)
    (hk : 1 ≤ k) (hf : 1 ≤ fuel) :
    k_shortest_paths g verbs nbw startN endN k fuel =
      Except.error PyErr.nodeNotInGraph := by
  obtain ⟨m, rfl⟩ : ∃ m, fuel = m + 1 := ⟨fuel - 1, by omega⟩
  rw [k_shortest_paths]
  simp only [ksLoop]
  rw [if_pos (by simp; omega)]
  simp [hasNodeW, hasNode, hg]

/-- C2, amended: constructing a `word_graph` from the empty sentence list
succeeds and leaves a graph with no nodes, but `get_compression` then does
**not** return an empty candidate list: for every `nb_candidates >= 1` the
search immediately asks networkx for the successors of the start node, which
is not in the graph, and a `NetworkXError` propagates out of
`get_compression`.  Only for `nb_candidates = 0` (where the search loop body
never runs) is an empty list returned. -/
theorem get_compression_empty_input (sepc : Char) (sw verbs : List String)
    (nbw : ℕ) (st : WGState) (h : word_graph_init sepc sw verbs nbw [] = Except.ok st)
    (nb fuel : ℕ) (hf : 1 ≤ fuel) :
    (1 ≤ nb → get_compression st nb fuel = Except.error PyErr.nodeNotInGraph) ∧
    (nb = 0 → get_compression st nb fuel = Except.ok []) := by
  have hinit : word_graph_init sepc sw verbs nbw [] =
      Except.ok (⟨[], [], [], ⟨[], []⟩, nbw, verbs⟩ : WGState) := by
    with_unfolding_all rfl
  rw [hinit] at h
  have hst : st = ⟨[], [], [], ⟨[], []⟩, nbw, verbs⟩ := ((Except.ok.injEq _ _).mp h).symm
  subst hst
  obtain ⟨m, rfl⟩ : ∃ m, fuel = m + 1 := ⟨fuel - 1, by omega⟩
  constructor
  · intro hnb
    have hks := k_shortest_paths_empty_graph ⟨[], []⟩ rfl verbs nbw startKey stopKey
      nb (m + 1) hnb (by omega)
    simp only [get_compression, hks]
  · rintro rfl
    with_unfolding_all rfl

/-- C2, witness: on the state built from the empty list, `nb_candidates = 50`
raises and `nb_candidates = 0` returns the empty list. -/
theorem get_compression_empty_input_witness :
    get_compression stC2 50 5 = Except.error PyErr.nodeNotInGraph ∧
    get_compression stC2 0 5 = Except.ok [] := by
  have h : word_graph_init '/' [] enVerbs 8 [] = Except.ok stC2 := by
    with_unfolding_all rfl
  exact ⟨(get_compression_empty_input '/' [] enVerbs 8 stC2 h 50 5 (by omega)).1 (by omega),
         (get_compression_empty_input '/' [] enVerbs 8 stC2 h 0 5 (by omega)).2 rfl⟩

/-- C2, counterexample: the claim says `get_compression(50)` on a graph built
from the empty sentence list returns an empty candidate list without raising;
in fact the missing start node makes the search raise. -/
theorem get_compression_empty_input_counterexample :
    (word_graph_init '/' [] enVerbs 8 []).bind (fun st => get_compression st 50 5) =
      Except.error PyErr.nodeNotInGraph := by
  with_unfolding_all rfl

/-! ## Claim C6 (parenthesis check of accepted paths) -/

/-- One validation step moves the parenthesis counter by the signed
parenthesis count of the token's word. -/
theorem checkTok_paren (verbs : List String) (st : PathStats) (nd : GNode) :
    (checkTok verbs st nd).paren =
      st.paren + (if (splitSep nd.1).1 = ")" then (1 : ℤ) else 0)
        - (if (splitSep nd.1).1 = "(" then (1 : ℤ) else 0) := by
  have e1 : isPunctTok "(" = true := by decide
  have e2 : isPunctTok ")" = true := by decide
  simp only [checkTok]
  split_ifs <;> simp_all

/-- The final parenthesis counter of the validation fold is the count of `)`
words minus the count of `(` words. -/
theorem foldl_checkTok_paren (verbs : List String) :
    ∀ (nds : List GNode) (st : PathStats),
      (nds.foldl (checkTok verbs) st).paren =
        st.paren + ((nds.map (fun nd => (splitSep nd.1).1)).count ")" : ℤ)
          - ((nds.map (fun nd => (splitSep nd.1).1)).count "(" : ℤ) := by
  intro nds
  induction nds with
  | nil => intro st; simp
  | cons nd rest ih =>
    intro st
    rw [List.foldl_cons, ih, checkTok_paren verbs st nd, List.map_cons,
      List.count_cons, List.count_cons]
    by_cases h1 : (splitSep nd.1).1 = "(" <;> by_cases h2 : (splitSep nd.1).1 = ")" <;>
      simp [h1, h2] <;> ring

/-- A path passing the validation has as many `(` as `)` words among its
validated tokens. -/
theorem validatePath_paren_counts (verbs : List String) (nbWords : ℕ) (sp : List GNode)
    (hok : (validatePath verbs nbWords sp).1 = true) :
    (sp.dropLast.map (fun nd => (splitSep nd.1).1)).count "(" =
      (sp.dropLast.map (fun nd => (splitSep nd.1).1)).count ")" := by
  simp only [validatePath, Bool.and_eq_true, beq_iff_eq, decide_eq_true_eq] at hok
  have hzero : (sp.dropLast.foldl (checkTok verbs) ⟨0, 0, 0, 0, ""⟩).paren = 0 :=
    hok.1.2
  rw [foldl_checkTok_paren verbs sp.dropLast ⟨0, 0, 0, 0, ""⟩] at hzero
  simp only [PathStats.paren] at hzero
  omega

theorem inner_reverse (e : GNode) (sp : List GNode) :
    ((e :: sp).reverse.drop 1).dropLast = sp.dropLast.reverse := by
  rw [List.reverse_cons]
  cases sp with
  | nil => simp
  | cons y ys =>
    rw [List.drop_append_eq_append_drop]
    have hlen : 1 - (y :: ys).reverse.length = 0 := by simp
    rw [hlen, List.drop_zero, List.dropLast_concat, List.drop_one,
      List.tail_reverse_eq_reverse_dropLast]

/-- One neighbor-processing step preserves the parenthesis-count property of
all accepted paths. -/
theorem ksNeighbor_preserves (g : WGraph) (verbs : List String) (nbWords : ℕ)
    (endN cur : GNode) (w0 : ℚ) (sp : List GNode) (st : KSState) (node : GNode)
    (hinv : ∀ pw ∈ st.ksp, (innerWords pw.1).count "(" = (innerWords pw.1).count ")") :
    ∀ pw ∈ (ksNeighbor g verbs nbWords endN cur w0 sp st node).ksp,
      (innerWords pw.1).count "(" = (innerWords pw.1).count ")" := by
  intro pw hpw
  simp only [ksNeighbor] at hpw
  split at hpw
  · exact hinv pw hpw
  · split at hpw
    · split at hpw
      · rename_i hacc
        have hpw2 : pw ∈ st.ksp ++ [((node :: sp).reverse, w0 + lookupWeight g cur node)] :=
          hpw
        rw [List.mem_append] at hpw2
        rcases hpw2 with h | h
        · exact hinv pw h
        · have hpweq : pw = ((node :: sp).reverse, w0 + lookupWeight g cur node) := by
            simpa using h
          subst hpweq
          have hok : (validatePath verbs nbWords sp).1 = true :=
            (Bool.and_eq_true ..).mp hacc |>.1
          have hcnt := validatePath_paren_counts verbs nbWords sp hok
          show (innerWords ((node :: sp).reverse)).count "(" =
            (innerWords ((node :: sp).reverse)).count ")"
          rw [innerWords, inner_reverse, List.map_reverse, List.count_reverse,
            List.count_reverse]
          exact hcnt
      · exact hinv pw hpw
    · exact hinv pw hpw

/-- The search loop only ever returns paths with balanced parenthesis counts
(given they held of the accumulator). -/
theorem ksLoop_paren (g : WGraph) (verbs : List String) (nbWords : ℕ) (endN : GNode)
    (k : ℕ) : ∀ (fuel : ℕ) (st : KSState),
    (∀ pw ∈ st.ksp, (innerWords pw.1).count "(" = (innerWords pw.1).count ")") →
    ∀ res, ksLoop g verbs nbWords endN k fuel st = Except.ok res →
      ∀ pw ∈ res, (innerWords pw.1).count "(" = (innerWords pw.1).count ")" := by
  intro fuel
  induction fuel with
  | zero => intro st _ res h; cases h
  | succ m ih =>
    intro st hinv res h
    simp only [ksLoop] at h
    split at h
    · split at h
      · cases h
      · rename_i shortest rest heq
        split at h
        · refine ih _ ?_ res h
          exact foldl_preserve
            (P := fun s : KSState => ∀ pw ∈ s.ksp,
              (innerWords pw.1).count "(" = (innerWords pw.1).count ")")
            (fun s nd hs => ksNeighbor_preserves g verbs nbWords endN
              shortest.2.1 shortest.1 _ s nd hs) _ _ hinv
        · cases h
    · cases h
      exact hinv

/-- C6, amended: every path accepted by the k-shortest-path search has equally
many `(` and `)` tokens — the running counter only has to return to zero at
the end of the path.  Nesting order is **not** checked: a `)` may come before
its `(` (see the counterexample). -/
theorem k_shortest_paths_paren_balance (g : WGraph) (verbs : List String)
    (nbWords : ℕ) (startN endN : GNode) (k fuel : ℕ) (res : List (List GNode × ℚ))
    (h : k_shortest_paths g verbs nbWords startN endN k fuel = Except.ok res) :
    ∀ pw ∈ res, (innerWords pw.1).count "(" = (innerWords pw.1).count ")" :=
  ksLoop_paren g verbs nbWords endN k fuel _
    (by intro pw hpw; exact absurd hpw (List.not_mem_nil pw)) res h

/-- C6, witness: the accepted path of the `wg6` run has one `(` and one `)`. -/
theorem k_shortest_paths_paren_balance_witness :
    (innerWords path6).count "(" = (innerWords path6).count ")" := by
  have h : k_shortest_paths wg6.graph wg6.verbs wg6.nb_words startKey stopKey 10 20 =
      Except.ok [(path6, 8)] := by with_unfolding_all rfl
  exact k_shortest_paths_paren_balance _ _ _ _ _ _ _ _ h (path6, 8) (by simp)

/-- C6, counterexample: on the word graph built from the sentence
`) a is b (`, the search accepts the path whose inner words are
`) a is b (` — the `(` has no matching later `)`, so the claim's nesting
property fails even though the counter ends at zero. -/
theorem paren_nesting_counterexample :
    word_graph_init '/' [] enVerbs 1 rawC6 = Except.ok wg6 ∧
    k_shortest_paths wg6.graph wg6.verbs wg6.nb_words startKey stopKey 10 20 =
      Except.ok [(path6, 8)] ∧
    parenScan (innerWords path6) 0 = false := by
  refine ⟨?_, ?_, ?_⟩ <;> with_unfolding_all rfl

/-! ## Claim C8 (fusion list: sorted by weight, sentinels stripped) -/

theorem insortFusion_perm (x : ℚ × List (String × String)) :
    ∀ l, (insortFusion x l).Perm (x :: l) := by
  intro l
  induction l with
  | nil => exact List.Perm.refl _
  | cons y ys ih =>
    rw [insortFusion]
    split
    · exact List.Perm.refl _
    · exact (List.Perm.cons y ih).trans (List.Perm.swap x y ys)

theorem insortFusion_sorted (x : ℚ × List (String × String)) :
    ∀ l, l.Pairwise (fun a b => a.1 ≤ b.1) →
      (insortFusion x l).Pairwise (fun a b => a.1 ≤ b.1) := by
  intro l
  induction l with
  | nil => intro _; exact List.pairwise_singleton _ _
  | cons y ys ih =>
    intro hs
    rw [insortFusion]
    split
    · rename_i hlt
      have hxy : x.1 ≤ y.1 := by
        simp only [fusionLt, Bool.or_eq_true, decide_eq_true_eq, Bool.and_eq_true,
          beq_iff_eq] at hlt
        rcases hlt with h | ⟨h, _⟩
        · exact le_of_lt h
        · exact le_of_eq h
      refine List.Pairwise.cons ?_ hs
      intro b hb
      rcases List.mem_cons.1 hb with rfl | hb2
      · exact hxy
      · exact le_trans hxy (List.rel_of_pairwise_cons hs hb2)
    · rename_i hnlt
      have hys := List.pairwise_cons.1 hs
      have hyx : y.1 ≤ x.1 := by
        simp only [fusionLt, Bool.or_eq_true, decide_eq_true_eq, Bool.and_eq_true,
          beq_iff_eq] at hnlt
        exact le_of_not_lt (fun hlt => hnlt (Or.inl hlt))
      refine List.Pairwise.cons ?_ (ih hys.2)
      intro b hb
      have hb2 : b ∈ x :: ys := (insortFusion_perm x ys).mem_iff.1 hb
      rcases List.mem_cons.1 hb2 with rfl | hb3
      · exact hyx
      · exact hys.1 b hb3

theorem buildFusions_sorted_perm (nb : ℕ) (ps : List (List GNode × ℚ)) :
    (buildFusions nb ps).Pairwise (fun a b => a.1 ≤ b.1) ∧
    (buildFusions nb ps).Perm ((ps.take nb).map stripPath) := by
  rw [buildFusions]
  generalize ps.take nb = l
  suffices h : ∀ (l : List (List GNode × ℚ)) (acc : List (ℚ × List (String × String))),
      acc.Pairwise (fun a b => a.1 ≤ b.1) →
      (l.foldl (fun acc pw => insortFusion (stripPath pw) acc) acc).Pairwise
        (fun a b => a.1 ≤ b.1) ∧
      (l.foldl (fun acc pw => insortFusion (stripPath pw) acc) acc).Perm
        (l.map stripPath ++ acc) by
    have h2 := h l [] List.Pairwise.nil
    exact ⟨h2.1, h2.2.trans (List.Perm.of_eq (by simp))⟩
  intro l
  induction l with
  | nil => intro acc ha; exact ⟨ha, List.Perm.of_eq (by simp)⟩
  | cons p rest ih =>
    intro acc ha
    rw [List.foldl_cons]
    have h1 := ih (insortFusion (stripPath p) acc) (insortFusion_sorted _ _ ha)
    refine ⟨h1.1, h1.2.trans ?_⟩
    refine ((List.Perm.append_left _ (insortFusion_perm (stripPath p) acc)).trans
      List.perm_middle).trans (List.Perm.of_eq ?_)
    simp

/-- C8: whenever `get_compression` returns a fusion list, that list is sorted
in ascending order of cumulative weight, and it is (a permutation produced by
sorted insertion of) the first `min(nb, len(paths))` search results, each
reduced to its weight and its `(word, POS)` pairs with the start and end
sentinel nodes stripped. -/
theorem get_compression_sorted (st : WGState) (nb fuel : ℕ)
    (fs : List (ℚ × List (String × String)))
    (h : get_compression st nb fuel = Except.ok fs) :
    fs.Pairwise (fun a b => a.1 ≤ b.1) ∧
    ∃ ps, k_shortest_paths st.graph st.verbs st.nb_words startKey stopKey nb fuel =
        Except.ok ps ∧ fs.Perm ((ps.take nb).map stripPath) := by
  rw [get_compression] at h
  cases hks : k_shortest_paths st.graph st.verbs st.nb_words startKey stopKey nb fuel with
  | error e =>
    rw [hks] at h
    exact Except.noConfusion h
  | ok ps =>
    rw [hks] at h
    have heq : Except.ok (buildFusions nb ps) =
        (Except.ok fs : Except PyErr (List (ℚ × List (String × String)))) := h
    have hfs : fs = buildFusions nb ps := ((Except.ok.injEq _ _).mp heq).symm
    subst hfs
    obtain ⟨h1, h2⟩ := buildFusions_sorted_perm nb ps
    exact ⟨h1, ps, rfl, h2⟩

/-- C8, witness: the `wg6` run returns one fusion; the sorted list is that
singleton and it matches the stripped search result. -/
theorem get_compression_sorted_witness :
    ([(((8 : ℚ)), [(")", "PUNCT"), ("a", "NN"), ("is", "VBZ"), ("b", "NN"),
      ("(", "PUNCT")])]).Pairwise (fun a b => a.1 ≤ b.1) ∧
    ∃ ps, k_shortest_paths wg6.graph wg6.verbs wg6.nb_words startKey stopKey 10 20 =
        Except.ok ps ∧
      ([(((8 : ℚ)), [(")", "PUNCT"), ("a", "NN"), ("is", "VBZ"), ("b", "NN"),
        ("(", "PUNCT")])]).Perm ((ps.take 10).map stripPath) :=
  get_compression_sorted wg6 10 20 _ (by with_unfolding_all rfl)

/-! ## Claim C5 (keyphrase clustering) -/

theorem coveredBy_self (kp : String) : coveredBy kp kp = true := by
  rw [coveredBy, List.all_eq_true]
  intro w hw
  exact List.elem_iff.2 hw

theorem assignKeyphrase_mem (clusters : List (String × List String)) (kp : String) :
    ∃ c ∈ assignKeyphrase clusters kp, kp ∈ c.2 := by
  rw [assignKeyphrase]
  split
  · rename_i hany
    rw [List.any_eq_true] at hany
    obtain ⟨c, hc, hcov⟩ := hany
    refine ⟨(c.1, c.2 ++ [kp]), ?_, by simp⟩
    have hfc : (fun c => if coveredBy kp c.1 then (c.1, c.2 ++ [kp]) else c) c =
        (c.1, c.2 ++ [kp]) := by simp [hcov]
    rw [← hfc]
    exact List.mem_map_of_mem _ hc
  · exact ⟨(kp, [kp]), by simp, by simp⟩

theorem assignKeyphrase_mono (clusters : List (String × List String)) (kp kp2 : String)
    (h : ∃ c ∈ clusters, kp ∈ c.2) : ∃ c ∈ assignKeyphrase clusters kp2, kp ∈ c.2 := by
  obtain ⟨c, hc, hkp⟩ := h
  rw [assignKeyphrase]
  split
  · by_cases hcov : coveredBy kp2 c.1 = true
    · refine ⟨(c.1, c.2 ++ [kp2]), ?_, by simp [hkp]⟩
      have hfc : (fun c => if coveredBy kp2 c.1 then (c.1, c.2 ++ [kp2]) else c) c =
          (c.1, c.2 ++ [kp2]) := by simp [hcov]
      rw [← hfc]
      exact List.mem_map_of_mem _ hc
    · refine ⟨c, ?_, hkp⟩
      have hfc : (fun c => if coveredBy kp2 c.1 then (c.1, c.2 ++ [kp2]) else c) c = c := by
        simp [hcov]
      rw [← hfc]
      exact List.mem_map_of_mem _ hc
  · exact ⟨c, List.mem_append_left _ hc, hkp⟩

theorem buildClusters_mem_go : ∀ (kps : List String) (acc : List (String × List String))
    (kp : String), (kp ∈ kps ∨ ∃ c ∈ acc, kp ∈ c.2) →
    ∃ c ∈ kps.foldl assignKeyphrase acc, kp ∈ c.2 := by
  intro kps
  induction kps with
  | nil =>
    intro acc kp h
    rcases h with h | h
    · cases h
    · exact h
  | cons k rest ih =>
    intro acc kp h
    rw [List.foldl_cons]
    apply ih
    rcases h with h | h
    · rcases List.mem_cons.1 h with rfl | hr
      · exact Or.inr (assignKeyphrase_mem acc kp)
      · exact Or.inl hr
    · exact Or.inr (assignKeyphrase_mono acc kp k h)

theorem assignKeyphrase_sound (clusters : List (String × List String)) (kp : String)
    (hinv : ∀ c ∈ clusters, ∀ m ∈ c.2, coveredBy m c.1 = true) :
    ∀ c ∈ assignKeyphrase clusters kp, ∀ m ∈ c.2, coveredBy m c.1 = true := by
  intro c hc m hm
  rw [assignKeyphrase] at hc
  split at hc
  · rw [List.mem_map] at hc
    obtain ⟨c0, hc0, hmap⟩ := hc
    by_cases hcov : coveredBy kp c0.1 = true
    · rw [if_pos hcov] at hmap
      subst hmap
      rcases List.mem_append.1 hm with h | h
      · exact hinv c0 hc0 m h
      · have hm2 : m = kp := by simpa using h
        subst hm2
        exact hcov
    · rw [if_neg hcov] at hmap
      subst hmap
      exact hinv c0 hc0 m hm
  · rcases List.mem_append.1 hc with h | h
    · exact hinv c h m hm
    · have hc2 : c = (kp, [kp]) := by simpa using h
      rw [hc2] at hm
      have hm2 : m = kp := by simpa using hm
      rw [hc2, hm2]
      exact coveredBy_self kp

/-- C5, amended: during cluster formation each candidate is placed into **at
least** one cluster — it is appended to *every* existing cluster whose
representative's word set is a superset of its own (the loop sets a flag but
never breaks), and a new cluster keyed by the candidate is created only when
no representative covers it.  Every member of every cluster is covered by its
cluster's representative. -/
theorem cluster_formation_membership (cands : List (String × List (String × String))) :
    (∀ kp ∈ cands.map (fun c => c.1), ∃ c ∈ cluster_formation cands, kp ∈ c.2) ∧
    (∀ c ∈ cluster_formation cands, ∀ m ∈ c.2, coveredBy m c.1 = true) := by
  constructor
  · intro kp hkp
    rw [cluster_formation, buildClusters]
    refine buildClusters_mem_go _ [] kp (Or.inl ?_)
    have hperm : ((cands.mergeSort (fun a b => b.2.length ≤ a.2.length)).map
        (fun c => c.1)).Perm (cands.map (fun c => c.1)) :=
      (List.mergeSort_perm cands _).map _
    exact hperm.mem_iff.2 hkp
  · rw [cluster_formation, buildClusters]
    refine foldl_preserve
      (P := fun cl : List (String × List String) =>
        ∀ c ∈ cl, ∀ m ∈ c.2, coveredBy m c.1 = true)
      (fun cl kp hcl => assignKeyphrase_sound cl kp hcl) _ [] ?_
    intro c hc
    exact absurd hc (List.not_mem_nil c)

/-- C5, witness: the one-word candidate `b` is a member of some cluster of the
clustering of `candsC5`. -/
theorem cluster_formation_membership_witness :
    ∃ c ∈ cluster_formation candsC5, "b" ∈ c.2 :=
  (cluster_formation_membership candsC5).1 "b" (by with_unfolding_all decide)

/-- C5, counterexample: on `candsC5` (already in descending word count) the
candidate `b` is covered by both representatives `a b` and `b c`, and the code
appends it to **both** clusters — not exactly one, as the claim states. -/
theorem cluster_multi_membership_counterexample :
    (cluster_formation candsC5).countP (fun c => c.2.contains "b") = 2 := by
  with_unfolding_all rfl

/-! ## Claim C10 (the constructors copy the caller's sentence list) -/

/-- C10: neither `word_graph.__init__` nor `keyphrase_reranker.__init__`
mutates the caller's sentence list: both start from
`self.sentence(s) = list(sentence_list)`, which allocates a fresh list object,
and the in-place sentence rewriting (preprocessing/tokenization) targets only
that fresh object, so every pre-existing heap cell — in particular the
caller's list at `r` — is unchanged. -/
theorem init_copies_sentence_list (sepc : Char) (sw : List String) (h : Heap) (r i : ℕ)
    (hi : i < h.length) :
    (word_graph_init_heap sepc h r).1[i]? = h[i]? ∧
    (keyphrase_reranker_init_heap sepc sw h r).1[i]? = h[i]? := by
  constructor
  · rw [word_graph_init_heap]
    rw [List.getElem?_set_ne (by omega)]
    rw [List.getElem?_append]
    rw [if_pos hi]
  · rw [keyphrase_reranker_init_heap]
    rw [List.getElem?_set_ne (by omega)]
    rw [List.getElem?_append]
    rw [if_pos hi]

/-- C10, witness: on a one-cell heap, cell 0 is unchanged by both inits. -/
theorem init_copies_sentence_list_witness :
    (word_graph_init_heap '/' hC10 0).1[0]? = hC10[0]? ∧
    (keyphrase_reranker_init_heap '/' [] hC10 0).1[0]? = hC10[0]? :=
  init_copies_sentence_list '/' [] hC10 0 0 (by decide)

/-! ## Claim C7 (same-sentence exclusion) -/

theorem addNode_nodup (g : NodeList) (n : GNode) (i j : ℕ)
    (hinv : ∀ p ∈ g, (p.2.map (fun q => q.1)).Nodup) :
    ∀ p ∈ addNode g n [(i, j)], (p.2.map (fun q => q.1)).Nodup := by
  intro p hp
  rw [addNode] at hp
  split at hp
  · rw [List.mem_map] at hp
    obtain ⟨q, hq, hmap⟩ := hp
    by_cases hqn : (q.1 == n) = true
    · rw [if_pos hqn] at hmap
      subst hmap
      simp
    · rw [if_neg hqn] at hmap
      subst hmap
      exact hinv q hq
  · rcases List.mem_append.1 hp with hmem | hmem
    · exact hinv p hmem
    · have hp2 : p = (n, [(i, j)]) := by simpa using hmem
      subst hp2
      simp

theorem appendInfo_nodup : ∀ (g : NodeList) (n : GNode) (i j : ℕ),
    (∀ p ∈ g, (p.2.map (fun q => q.1)).Nodup) →
    ((getInfo g n).map (fun q => q.1)).contains i = false →
    ∀ p ∈ appendInfo g n (i, j), (p.2.map (fun q => q.1)).Nodup := by
  intro g
  induction g with
  | nil =>
    intro n i j _ _ p hp
    exact absurd hp (List.not_mem_nil p)
  | cons q qs ih =>
    intro n i j hinv hni p hp
    rw [appendInfo] at hp
    by_cases hqn : (q.1 == n) = true
    · rw [if_pos hqn] at hp
      rcases List.mem_cons.1 hp with rfl | hqs
      · have hgi : getInfo (q :: qs) n = q.2 := by
          rw [getInfo, List.find?_cons_of_pos (p := fun r => r.1 == n) qs hqn]
          rfl
        have h1 := hinv q (List.mem_cons_self _ _)
        have h2 : i ∉ q.2.map (fun q => q.1) := by
          rw [hgi] at hni
          intro hmem
          rw [List.contains_eq_any_beq] at hni
          have hany : (q.2.map (fun q => q.1)).any (i == ·) = true :=
            List.any_eq_true.2 ⟨i, hmem, by simp⟩
          rw [hany] at hni
          cases hni
        show (((q.2 ++ [(i, j)]).map (fun q => q.1))).Nodup
        rw [List.map_append]
        refine (List.perm_append_singleton _ _).nodup_iff.2 ?_
        exact List.nodup_cons.2 ⟨h2, h1⟩
      · exact hinv p (List.mem_cons_of_mem _ hqs)
    · rw [if_neg hqn] at hp
      rcases List.mem_cons.1 hp with rfl | hqs
      · exact hinv p (List.mem_cons_self _ _)
      · refine ih n i j (fun r hr => hinv r (List.mem_cons_of_mem _ hr)) ?_ p hqs
        have hgi : getInfo (q :: qs) n = getInfo qs n := by
          rw [getInfo, List.find?_cons_of_neg (p := fun r => r.1 == n) qs hqn]
          rfl
        rwa [hgi] at hni

theorem addEdgeNodes_nodup (g : NodeList) (n : GNode)
    (hinv : ∀ p ∈ g, (p.2.map (fun q => q.1)).Nodup) :
    ∀ p ∈ addEdgeNodes g n, (p.2.map (fun q => q.1)).Nodup := by
  intro p hp
  rw [addEdgeNodes] at hp
  split at hp
  · exact hinv p hp
  · rcases List.mem_append.1 hp with hmem | hmem
    · exact hinv p hmem
    · have hp2 : p = (n, []) := by simpa using hmem
      subst hp2
      simp

theorem selectLoop_sound (o f : List ℕ) (c : ℕ → Bool) (s : ℕ)
    (h : selectLoop o f c = some s) : c s = false :=
  selectLoopGo_sound o.length o f c s h

theorem pass1Step_nodup (sw : List String) (i : ℕ) (sent : List Triple)
    (gm : NodeList × List (Option GNode)) (j : ℕ)
    (hinv : ∀ p ∈ gm.1, (p.2.map (fun q => q.1)).Nodup) :
    ∀ p ∈ (pass1Step sw i sent gm j).1, (p.2.map (fun q => q.1)).Nodup := by
  simp only [pass1Step]
  split
  · exact hinv
  · split
    · exact addNode_nodup _ _ _ _ hinv
    · split
      · split
        · rename_i hguard
          refine appendInfo_nodup _ _ _ _ hinv ?_
          simpa using hguard
        · exact addNode_nodup _ _ _ _ hinv
      · exact hinv

theorem pass2Step_nodup (sents : List (List Triple)) (sw : List String) (i : ℕ)
    (sent : List Triple) (gm : NodeList × List (Option GNode)) (j : ℕ)
    (hinv : ∀ p ∈ gm.1, (p.2.map (fun q => q.1)).Nodup) :
    ∀ p ∈ (pass2Step sents sw i sent gm j).1, (p.2.map (fun q => q.1)).Nodup := by
  simp only [pass2Step]
  split
  · exact hinv
  · split
    · exact hinv
    · split
      · rename_i sel hsel
        refine appendInfo_nodup _ _ _ _ hinv ?_
        simpa using selectLoop_sound _ _ _ _ hsel
      · exact addNode_nodup _ _ _ _ hinv

theorem pass3Step_nodup (sents : List (List Triple)) (sw : List String) (i : ℕ)
    (sent : List Triple) (gm : NodeList × List (Option GNode)) (j : ℕ)
    (hinv : ∀ p ∈ gm.1, (p.2.map (fun q => q.1)).Nodup) :
    ∀ p ∈ (pass3Step sents sw i sent gm j).1, (p.2.map (fun q => q.1)).Nodup := by
  simp only [pass3Step]
  split
  · exact hinv
  · split
    · exact addNode_nodup _ _ _ _ hinv
    · split
      · rename_i hguard
        refine appendInfo_nodup _ _ _ _ hinv ?_
        have h1 := ((Bool.and_eq_true _ _).mp hguard).1
        simpa using h1
      · exact addNode_nodup _ _ _ _ hinv

theorem pass4Step_nodup (sents : List (List Triple)) (sw : List String) (i : ℕ)
    (sent : List Triple) (gm : NodeList × List (Option GNode)) (j : ℕ)
    (hinv : ∀ p ∈ gm.1, (p.2.map (fun q => q.1)).Nodup) :
    ∀ p ∈ (pass4Step sents sw i sent gm j).1, (p.2.map (fun q => q.1)).Nodup := by
  simp only [pass4Step]
  split
  · exact hinv
  · split
    · exact addNode_nodup _ _ _ _ hinv
    · split
      · rename_i hguard
        refine appendInfo_nodup _ _ _ _ hinv ?_
        have h1 := ((Bool.and_eq_true _ _).mp hguard).1
        simpa using h1
      · exact addNode_nodup _ _ _ _ hinv

theorem process_sentence_nodup (sents : List (List Triple)) (sw : List String)
    (acc : NodeList × List (GNode × GNode)) (i : ℕ)
    (hinv : ∀ p ∈ acc.1, (p.2.map (fun q => q.1)).Nodup) :
    ∀ p ∈ (process_sentence sents sw acc i).1, (p.2.map (fun q => q.1)).Nodup := by
  simp only [process_sentence]
  refine foldl_preserve
    (P := fun ge : NodeList × List (GNode × GNode) =>
      ∀ p ∈ ge.1, (p.2.map (fun q => q.1)).Nodup) ?hedge _ _ ?hbase
  · intro ge j hge p hp
    exact addEdgeNodes_nodup _ _ (addEdgeNodes_nodup _ _ hge) p hp
  · refine foldl_preserve
      (P := fun gm : NodeList × List (Option GNode) =>
        ∀ p ∈ gm.1, (p.2.map (fun q => q.1)).Nodup)
      (fun gm j h => pass4Step_nodup sents sw i _ gm j h) _ _ ?_
    refine foldl_preserve
      (P := fun gm : NodeList × List (Option GNode) =>
        ∀ p ∈ gm.1, (p.2.map (fun q => q.1)).Nodup)
      (fun gm j h => pass3Step_nodup sents sw i _ gm j h) _ _ ?_
    refine foldl_preserve
      (P := fun gm : NodeList × List (Option GNode) =>
        ∀ p ∈ gm.1, (p.2.map (fun q => q.1)).Nodup)
      (fun gm j h => pass2Step_nodup sents sw i _ gm j h) _ _ ?_
    refine foldl_preserve
      (P := fun gm : NodeList × List (Option GNode) =>
        ∀ p ∈ gm.1, (p.2.map (fun q => q.1)).Nodup)
      (fun gm j h => pass1Step_nodup sw i _ gm j h) _ _ ?_
    exact hinv

theorem build_graph_core_nodup (sents : List (List Triple)) (sw : List String) :
    ∀ p ∈ (build_graph_core sents sw).1, (p.2.map (fun q => q.1)).Nodup := by
  rw [build_graph_core]
  exact foldl_preserve (fun acc i h => process_sentence_nodup sents sw acc i h) _ _
    (fun p hp => absurd hp (List.not_mem_nil p))

theorem finalize_edges_nodes (tw : List (String × ℚ)) (n : ℕ)
    (pre : NodeList × List (GNode × GNode)) (g : WGraph)
    (h : finalize_edges tw n pre = Except.ok g) : g.nodes = pre.1 := by
  rw [finalize_edges] at h
  split at h
  · exact Except.noConfusion h
  · cases h
    rfl

/-- C7: after a successful `word_graph` construction, every node's occurrence
list records pairwise distinct sentence indices: every occurrence append in
the four passes is guarded by an `i not in ids` check (in pass 2 through the
selection loop, in passes 3 and 4 explicitly), and newly created nodes carry a
single occurrence. -/
theorem build_graph_same_sentence_exclusion (sepc : Char) (sw verbs : List String)
    (nbw : ℕ) (raw : List String) (st : WGState)
    (h : word_graph_init sepc sw verbs nbw raw = Except.ok st) :
    ∀ nd inf, (nd, inf) ∈ st.graph.nodes → (inf.map (fun q => q.1)).Nodup := by
  rw [word_graph_init] at h
  split at h
  · exact Except.noConfusion h
  · rename_i sents hpre
    split at h
    · exact Except.noConfusion h
    · rename_i stats hstat
      split at h
      · exact Except.noConfusion h
      · rename_i g hfin
        cases h
        intro nd inf hmem
        have hnodes := finalize_edges_nodes _ _ _ _ hfin
        rw [show (WGState.mk sents stats.1 stats.2 g nbw verbs).graph = g from rfl,
          hnodes] at hmem
        exact build_graph_core_nodup sents sw (nd, inf) hmem

/-- C7, witness: in the graph built from `a/NN/1`, the node for `a` has the
single occurrence `(0, 1)`, whose sentence indices are trivially distinct. -/
theorem build_graph_same_sentence_exclusion_witness :
    word_graph_init '/' [] enVerbs 1 ["a/NN/1"] = Except.ok wgA ∧
    (([((0 : ℕ), (1 : ℕ))]).map (fun q => q.1)).Nodup := by
  have h : word_graph_init '/' [] enVerbs 1 ["a/NN/1"] = Except.ok wgA := by
    with_unfolding_all rfl
  refine ⟨h, ?_⟩
  exact build_graph_same_sentence_exclusion '/' [] enVerbs 1 ["a/NN/1"] wgA h
    (nodeOf "a" "NN", 0) [(0, 1)] (by with_unfolding_all decide)
